import Mathlib

set_option maxRecDepth 40000
set_option maxHeartbeats 1000000

/-!
# Verification of the ESPAI streaming core

A shallow embedding, in Lean 4, of the streaming SSE parser
(`src/http/SSEParser.cpp`), the retry/backoff and single-shot execution
loop (`src/providers/AIProvider.cpp` / `AIProvider.h`) and the single-slot
asynchronous task runner (`src/async/AsyncTaskRunner.cpp`) of the ESPAI
library, together with proofs about the embedded definitions.

Modelling conventions:
* Byte strings are modelled as `List Char` (the parser treats the input as a
  flat byte sequence; every byte it inspects is ASCII, so the alphabet is
  abstract here).  Accumulated text, JSON string values and callback
  arguments are Lean `String`s.
* ArduinoJson's `deserializeJson` is a fixed, pure function of the input
  text; it is abstracted as a parameter `jparse : List Char → Option Json`
  of the parser model.  Concrete closed theorems instantiate it with a
  finite oracle (`jfix`) whose entries each map a literal JSON text to the
  JSON value any conforming JSON parser yields for it (or `none` for a
  malformed text).
* Callback invocations are recorded in an explicit trace (`CbEvent`); the
  C++ code invokes a callback only when one is registered, so the trace of
  a run determines the invocation sequence for every fixed registration.
* C++ machine integers are modelled as `Nat`/`Int`, with an explicit
  `% 2 ^ 32` where 32-bit unsigned overflow is reachable.  The single
  `float` computation (`calculateRetryDelay`'s backoff product) is modelled
  in exact rational arithmetic; for the inputs exercised by the claims the
  float computation is exact.
-/

namespace ESPAI

/-- `SSEFormat` from `src/http/SSEParser.h`. -/
inductive SSEFormat : Type
  | OpenAI
  | Anthropic
  | Gemini
deriving DecidableEq, Repr

/-- `ErrorCode` from `src/core/AITypes.h`. -/
inductive ErrorCode : Type
  | None
  | NetworkError
  | Timeout
  | AuthError
  | RateLimited
  | InvalidRequest
  | ServerError
  | ParseError
  | OutOfMemory
  | ProviderNotSupported
  | NotConfigured
  | StreamingError
  | ResponseTooLarge
deriving DecidableEq, Repr

mutual
/-- JSON values, as ArduinoJson's `JsonDocument` stores them.  Numbers are
modelled as integers (no claim involves fractional JSON numbers).  Arrays
and objects carry their own spine types (`JL`, `JM`) so that every
recursion over the tree is structural and kernel-reducible. -/
inductive Json : Type
  | null
  | bool (b : Bool)
  | num (n : Int)
  | str (s : String)
  | arr (elems : JL)
  | obj (members : JM)
deriving DecidableEq

/-- Spine of a JSON array. -/
inductive JL : Type
  | nil
  | cons (head : Json) (tail : JL)
deriving DecidableEq

/-- Spine of a JSON object: an ordered member list. -/
inductive JM : Type
  | nil
  | cons (key : String) (value : Json) (tail : JM)
deriving DecidableEq
end

/-- The elements of a JSON array spine, as a plain list. -/
def JL.toList : JL → List Json
  | .nil => []
  | .cons x xs => x :: JL.toList xs

/-- Build a JSON array spine from a plain list. -/
def JL.ofList : List Json → JL
  | [] => .nil
  | x :: xs => .cons x (JL.ofList xs)

/-- The members of a JSON object spine, as a plain association list. -/
def JM.toList : JM → List (String × Json)
  | .nil => []
  | .cons k v ms => (k, v) :: JM.toList ms

/-- Build a JSON object spine from a plain association list. -/
def JM.ofList : List (String × Json) → JM
  | [] => .nil
  | (k, v) :: ms => .cons k v (JM.ofList ms)

/-- First-match lookup in a JSON object member list. -/
def jfind : JM → String → Option Json
  | .nil, _ => none
  | .cons k v rest, key => if k = key then some v else jfind rest key

/-- ArduinoJson `variant[key]`: member lookup that yields the null variant
for a missing key or a non-object receiver. -/
def Json.get : Json → String → Json
  | .obj ms, key =>
    match jfind ms key with
    | some v => v
    | none => .null
  | _, _ => .null

/-- ArduinoJson `variant.isNull()`. -/
def Json.isNull : Json → Bool
  | .null => true
  | _ => false

/-- ArduinoJson `JsonArray` conversion: a non-array variant converts to the
null array, which iterates as empty. -/
def Json.asArr : Json → List Json
  | .arr xs => xs.toList
  | _ => []

/-- ArduinoJson `variant | default` with an integer default. -/
def Json.orInt : Json → Int → Int
  | .num n, _ => n
  | _, d => d

/-- ArduinoJson `variant | default` with a string default. -/
def Json.orStr : Json → String → String
  | .str s, _ => s
  | _, d => d

/-- ArduinoJson `variant | default` with a boolean default. -/
def Json.orBool : Json → Bool → Bool
  | .bool b, _ => b
  | _, d => d

/-- One character of ArduinoJson's compact string escaping. -/
def escapeChar (c : Char) : String :=
  if c = '"' then "\\\""
  else if c = '\\' then "\\\\"
  else if c = '\n' then "\\n"
  else if c = '\r' then "\\r"
  else if c = '\t' then "\\t"
  else if c = '\x08' then "\\b"
  else if c = '\x0c' then "\\f"
  else String.singleton c

/-- ArduinoJson's string escaping, character by character. -/
def escapeString (s : String) : String :=
  String.join (s.data.map escapeChar)

mutual
/-- Compact JSON serialization, as ArduinoJson's `serializeJson` writes it:
no whitespace, members and elements comma-separated in order. -/
def serializeJson : Json → String
  | .null => "null"
  | .bool true => "true"
  | .bool false => "false"
  | .num n => toString n
  | .str s => "\"" ++ escapeString s ++ "\""
  | .arr xs => "[" ++ serializeElems xs ++ "]"
  | .obj ms => "\x7b" ++ serializeMembers ms ++ "\x7d"

/-- Comma-separated serialization of array elements. -/
def serializeElems : JL → String
  | .nil => ""
  | .cons x .nil => serializeJson x
  | .cons x xs => serializeJson x ++ "," ++ serializeElems xs

/-- Comma-separated serialization of object members. -/
def serializeMembers : JM → String
  | .nil => ""
  | .cons k v .nil => "\"" ++ escapeString k ++ "\":" ++ serializeJson v
  | .cons k v ms => "\"" ++ escapeString k ++ "\":" ++ serializeJson v ++ "," ++ serializeMembers ms
end

/-- ArduinoJson `variant.as<String>()`: a string value converts to itself,
any other value (including null) to its serialization. -/
def Json.asString : Json → String
  | .str s => s
  | j => serializeJson j

/-- `PendingToolCall` from `src/http/SSEParser.h`: a tool call being
assembled across fragments.  Default construction gives three empty
strings. -/
structure PendingToolCall : Type where
  id : String
  name : String
  arguments : String
deriving DecidableEq, Repr

instance : Inhabited PendingToolCall := ⟨⟨"", "", ""⟩⟩

/-- One callback invocation of an `SSEParser`, in invocation order: the raw
event callback, the content callback, the tool-call callback, or the error
callback.  The C++ parser fires a callback only when one is registered, so
this trace determines the invocation sequence for every registration. -/
inductive CbEvent : Type
  | event (eventType : String) (data : String) (isDone : Bool)
  | content (content : String) (done : Bool)
  | toolCall (id : String) (name : String) (arguments : String)
  | error (code : ErrorCode) (message : String)
deriving DecidableEq, Repr

/-- `ESPAI_MAX_TOOLS` from `src/core/AIConfig.h` (default configuration). -/
def ESPAI_MAX_TOOLS : Nat := 10

/-- The mutable fields of `SSEParser` other than the line buffer (and the
wall-clock fields `_timeoutMs`/`_lastActivityMs`, which only feed
`checkTimeout` and are outside every claim).  `_format` and the
`_accumulateContent` toggle are configuration but are carried here because
parsing consults them. -/
structure Core : Type where
  format : SSEFormat
  accumulatedContent : String
  currentEventType : String
  errorMessage : String
  errorCode : ErrorCode
  done : Bool
  cancelled : Bool
  hasError : Bool
  accumulateContent : Bool
  pendingToolCalls : List PendingToolCall
  currentToolCallIndex : Int
deriving DecidableEq, Repr

/-- A parser in terminal state ignores further input:
`_done || _cancelled || _hasError`. -/
def Core.terminal (c : Core) : Bool :=
  c.done || c.cancelled || c.hasError

/-- Full parser state: the line buffer plus the core fields. -/
structure PState : Type where
  buffer : List Char
  core : Core
deriving DecidableEq, Repr

/-- The state established by both `SSEParser` constructors for the fields
modelled here. -/
def initCore (format : SSEFormat) : Core where
  format := format
  accumulatedContent := ""
  currentEventType := ""
  errorMessage := ""
  errorCode := .None
  done := false
  cancelled := false
  hasError := false
  accumulateContent := true
  pendingToolCalls := []
  currentToolCallIndex := -1

/-- A freshly constructed `SSEParser(format)`. -/
def initState (format : SSEFormat) : PState :=
  ⟨[], initCore format⟩

/-- `SSEParser::reset`: clears the buffer, accumulated content, current
event type, error fields, terminal flags, pending tool calls and the open
tool-call index.  Configuration (`_format`, the accumulate toggle, the
registered callbacks, `_timeoutMs`) is untouched. -/
def reset (st : PState) : PState :=
  ⟨[], { st.core with
          accumulatedContent := ""
          currentEventType := ""
          errorMessage := ""
          errorCode := .None
          done := false
          cancelled := false
          hasError := false
          pendingToolCalls := []
          currentToolCallIndex := -1 }⟩

/-- `SSEParser::cancel`: sets the `_cancelled` flag. -/
def cancel (st : PState) : PState :=
  ⟨st.buffer, { st.core with cancelled := true }⟩

/-- `leadsWith n h` holds when `n` is an initial run of `h` (helper for the
substring search below). -/
def leadsWith : List Char → List Char → Bool
  | [], _ => true
  | _ :: _, [] => false
  | a :: as, b :: bs => a = b && leadsWith as bs

/-- `hasSub n h` is `h.indexOf(n) != -1` of Arduino `String` /
`std::string::find`: `n` occurs as a contiguous run inside `h`. -/
def hasSub (needle : List Char) : List Char → Bool
  | [] => leadsWith needle []
  | c :: rest => leadsWith needle (c :: rest) || hasSub needle rest

/-- `buffer.indexOf('\n')` followed by the two `substring` calls of
`SSEParser::processBuffer`: the first complete line and the rest of the
buffer, or `none` when no newline is present. -/
def splitline : List Char → Option (List Char × List Char)
  | [] => none
  | c :: rest =>
    if c = '\n' then some ([], rest)
    else
      match splitline rest with
      | none => none
      | some (l, r) => some (c :: l, r)

/-- The trailing-`'\r'` strip of `SSEParser::processBuffer`
(`!line.isEmpty() && line[line.length() - 1] == '\r'`). -/
def stripCR (line : List Char) : List Char :=
  if line.getLast? = some '\r' then line.dropLast else line

/-- `line.indexOf(':')`: position of the first colon. -/
def colonIdx : List Char → Option Nat
  | [] => none
  | c :: rest =>
    if c = ':' then some 0
    else (colonIdx rest).map (· + 1)

/-- Result of one format-specific chunk parser
(`parseOpenAIChunk` / `parseAnthropicChunk` / `parseGeminiChunk`): the
boolean return value, the `content` and `done` out-parameters, the updated
core, and the callbacks the chunk parser itself fired. -/
structure ChunkOut : Type where
  ok : Bool
  content : String
  done : Bool
  core : Core
  trace : List CbEvent
deriving DecidableEq, Repr

/-- `SSEParser::finalizeToolCalls`: fires the tool-call callback for every
pending tool call with a non-empty name, in order.  The pending list itself
is not cleared. -/
def finalizeToolCalls (pending : List PendingToolCall) : List CbEvent :=
  (pending.filter (fun tc => !tc.name.isEmpty)).map
    (fun tc => .toolCall tc.id tc.name tc.arguments)

/-- The body of `parseOpenAIChunk`'s `for (JsonObject tc : toolCalls)`
loop: merge one indexed tool-call fragment into the pending list.  A
fragment whose index is negative or at least `ESPAI_MAX_TOOLS` is skipped;
otherwise the list is grown with default entries up to the index, then the
fragment's `id`, `function.name` and `function.arguments` are applied
(assignment for `id`/`name`, concatenation for `arguments`). -/
def mergeOneToolCall (pending : List PendingToolCall) (tc : Json) : List PendingToolCall :=
  let index : Int := (tc.get "index").orInt 0
  if index < 0 ∨ (ESPAI_MAX_TOOLS : Int) ≤ index then pending
  else
    let i := index.toNat
    let padded := pending ++ List.replicate (i + 1 - pending.length) default
    let cur0 := padded.getD i default
    let cur1 :=
      if (tc.get "id").isNull then cur0
      else { cur0 with id := (tc.get "id").asString }
    let cur2 :=
      if (tc.get "function").isNull then cur1
      else
        let func := tc.get "function"
        let curA :=
          if (func.get "name").isNull then cur1
          else { cur1 with name := (func.get "name").asString }
        if (func.get "arguments").isNull then curA
        else { curA with arguments := curA.arguments ++ (func.get "arguments").asString }
    padded.set i cur2

/-- `SSEParser::parseOpenAIChunk`. -/
def parseOpenAIChunk (jparse : List Char → Option Json) (core : Core) (data : List Char) :
    ChunkOut :=
  if hasSub "[DONE]".data data then
    { ok := true, content := "", done := true, core := core,
      trace := finalizeToolCalls core.pendingToolCalls }
  else
    match jparse data with
    | none => { ok := false, content := "", done := false, core := core, trace := [] }
    | some doc =>
      if (doc.get "choices").isNull then
        { ok := false, content := "", done := false, core := core, trace := [] }
      else
        match (doc.get "choices").asArr with
        | [] => { ok := true, content := "", done := false, core := core, trace := [] }
        | firstChoice :: _ =>
          if (firstChoice.get "delta").isNull then
            { ok := true, content := "", done := false, core := core, trace := [] }
          else
            let delta := firstChoice.get "delta"
            let content :=
              if (delta.get "content").isNull then "" else (delta.get "content").asString
            let pending :=
              if (delta.get "tool_calls").isNull then core.pendingToolCalls
              else ((delta.get "tool_calls").asArr).foldl mergeOneToolCall core.pendingToolCalls
            { ok := true, content := content, done := false,
              core := { core with pendingToolCalls := pending }, trace := [] }

/-- `_pendingToolCalls[_currentToolCallIndex].arguments += s`. -/
def appendArgsAt (pending : List PendingToolCall) (i : Nat) (s : String) :
    List PendingToolCall :=
  let cur := pending.getD i default
  pending.set i { cur with arguments := cur.arguments ++ s }

/-- `SSEParser::parseAnthropicChunk`. -/
def parseAnthropicChunk (jparse : List Char → Option Json) (core : Core) (data : List Char) :
    ChunkOut :=
  if core.currentEventType = "message_stop" then
    { ok := true, content := "", done := true, core := core, trace := [] }
  else
    match jparse data with
    | none =>
      if core.currentEventType = "message_start" ∨
         core.currentEventType = "content_block_start" ∨
         core.currentEventType = "content_block_stop" ∨
         core.currentEventType = "ping" then
        { ok := true, content := "", done := false, core := core, trace := [] }
      else
        { ok := false, content := "", done := false, core := core, trace := [] }
    | some doc =>
      let type := (doc.get "type").orStr ""
      if type = "message_stop" then
        { ok := true, content := "", done := true, core := core, trace := [] }
      else if type = "content_block_start" then
        let block := doc.get "content_block"
        let blockType := (block.get "type").orStr ""
        if blockType = "tool_use" then
          if ESPAI_MAX_TOOLS ≤ core.pendingToolCalls.length then
            { ok := true, content := "", done := false, core := core, trace := [] }
          else
            let tc : PendingToolCall := ⟨(block.get "id").asString, (block.get "name").asString, ""⟩
            { ok := true, content := "", done := false,
              core := { core with
                         pendingToolCalls := core.pendingToolCalls ++ [tc]
                         currentToolCallIndex := (core.pendingToolCalls.length : Int) },
              trace := [] }
        else
          { ok := true, content := "", done := false, core := core, trace := [] }
      else
        let step1 : String × Core :=
          if type = "content_block_delta" then
            let delta := doc.get "delta"
            let deltaType := (delta.get "type").orStr ""
            if deltaType = "text_delta" then ((delta.get "text").asString, core)
            else if deltaType = "input_json_delta" then
              if 0 ≤ core.currentToolCallIndex ∧
                 core.currentToolCallIndex < (core.pendingToolCalls.length : Int) then
                let newPending :=
                  appendArgsAt core.pendingToolCalls core.currentToolCallIndex.toNat
                    ((delta.get "partial_json").asString)
                ("", { core with pendingToolCalls := newPending })
              else ("", core)
            else ("", core)
          else ("", core)
        let core1 := step1.2
        if type = "content_block_stop" then
          if 0 ≤ core1.currentToolCallIndex ∧
             core1.currentToolCallIndex < (core1.pendingToolCalls.length : Int) then
            let tc := core1.pendingToolCalls.getD core1.currentToolCallIndex.toNat default
            { ok := true, content := step1.1, done := false,
              core := { core1 with currentToolCallIndex := -1 },
              trace := if !tc.name.isEmpty then [.toolCall tc.id tc.name tc.arguments] else [] }
          else
            { ok := true, content := step1.1, done := false, core := core1, trace := [] }
        else
          { ok := true, content := step1.1, done := false, core := core1, trace := [] }

/-- The body of `parseGeminiChunk`'s `for (JsonObject part : parts)` loop:
thought parts are skipped; a `text` member extends the line's content; a
`functionCall` member becomes a fully-formed pending tool call with a
synthesized id `gemini_tc_<current pending count>` and the serialized
`args` as arguments, pushed only when its name is non-empty. -/
def geminiPart (acc : String × List PendingToolCall) (part : Json) :
    String × List PendingToolCall :=
  if (part.get "thought").orBool false then acc
  else
    let content :=
      if (part.get "text").isNull then acc.1 else acc.1 ++ (part.get "text").asString
    let pending :=
      if (part.get "functionCall").isNull then acc.2
      else
        let fc := part.get "functionCall"
        let name := (fc.get "name").asString
        let argsStr := serializeJson (fc.get "args")
        let id := "gemini_tc_" ++ toString acc.2.length
        if !name.isEmpty then acc.2 ++ [⟨id, name, argsStr⟩] else acc.2
    (content, pending)

/-- `SSEParser::parseGeminiChunk`. -/
def parseGeminiChunk (jparse : List Char → Option Json) (core : Core) (data : List Char) :
    ChunkOut :=
  match jparse data with
  | none => { ok := false, content := "", done := false, core := core, trace := [] }
  | some doc =>
    if !(doc.get "error").isNull then
      let errorMsg0 := ((doc.get "error").get "message").asString
      let errorMsg := if errorMsg0.isEmpty then "API error" else errorMsg0
      let errCore :=
        { core with hasError := true, errorCode := ErrorCode.ServerError,
                    errorMessage := errorMsg }
      { ok := false, content := "", done := false, core := errCore,
        trace := [.error .ServerError errorMsg] }
    else if (doc.get "candidates").isNull then
      { ok := false, content := "", done := false, core := core, trace := [] }
    else
      match (doc.get "candidates").asArr with
      | [] => { ok := true, content := "", done := false, core := core, trace := [] }
      | firstCandidate :: _ =>
        let parsed : String × List PendingToolCall :=
          if (firstCandidate.get "content").isNull then ("", core.pendingToolCalls)
          else
            let contentObj := firstCandidate.get "content"
            if (contentObj.get "parts").isNull then ("", core.pendingToolCalls)
            else ((contentObj.get "parts").asArr).foldl geminiPart ("", core.pendingToolCalls)
        let core1 := { core with pendingToolCalls := parsed.2 }
        let finishReason := (firstCandidate.get "finishReason").orStr ""
        if !finishReason.isEmpty then
          { ok := true, content := parsed.1, done := true, core := core1,
            trace := finalizeToolCalls parsed.2 }
        else
          { ok := true, content := parsed.1, done := false, core := core1, trace := [] }

/-- `SSEParser::parseAndDispatchContent`: route the data payload to the
format-specific chunk parser; on a `true` return, record `done`, fire the
raw event callback, fire the content callback for non-empty content
(accumulating if enabled), and fire the final `("", true)` content callback
on completion. -/
def parseAndDispatchContent (jparse : List Char → Option Json) (core : Core)
    (data : List Char) : Core × List CbEvent :=
  let out :=
    match core.format with
    | .OpenAI => parseOpenAIChunk jparse core data
    | .Gemini => parseGeminiChunk jparse core data
    | .Anthropic => parseAnthropicChunk jparse core data
  if !out.ok then (out.core, out.trace)
  else
    let core1 := { out.core with done := out.done }
    let eventTr := [CbEvent.event core.currentEventType (String.mk data) out.done]
    let step2 : Core × List CbEvent :=
      if !out.content.isEmpty then
        ({ core1 with accumulatedContent :=
             if core1.accumulateContent then core1.accumulatedContent ++ out.content
             else core1.accumulatedContent },
         [CbEvent.content out.content false])
      else (core1, [])
    let doneTr := if out.done then [CbEvent.content "" true] else []
    (step2.1, out.trace ++ eventTr ++ step2.2 ++ doneTr)

/-- `SSEParser::processLine`: a blank line clears the current event type
(`dispatchEvent`); a line without a colon, or starting with one, is
ignored; otherwise the field name is the text before the first colon and
the value is the text after it with leading spaces stripped — an `event`
field records the frame type, a `data` field is dispatched. -/
def processLine (jparse : List Char → Option Json) (core : Core) (line : List Char) :
    Core × List CbEvent :=
  if line.isEmpty then ({ core with currentEventType := "" }, [])
  else
    match colonIdx line with
    | none => (core, [])
    | some colonPos =>
      if colonPos = 0 then (core, [])
      else
        let field := line.take colonPos
        let value := (line.drop (colonPos + 1)).dropWhile (fun c => c = ' ')
        if field = "event".data then ({ core with currentEventType := String.mk value }, [])
        else if field = "data".data then parseAndDispatchContent jparse core value
        else (core, [])

/-- `SSEParser::processBuffer`, with the loop expressed as structural
recursion on a fuel bound: each iteration removes a line and its newline
(at least one character) from the buffer, so `buffer.length` iterations
always suffice and the fuel-exhausted case is unreachable from
`processBuffer`. -/
def processBufferFuel (jparse : List Char → Option Json) :
    Nat → List Char → Core → List Char × Core × List CbEvent
  | 0, buf, core => (buf, core, [])
  | f + 1, buf, core =>
    match splitline buf with
    | none => (buf, core, [])
    | some (line, rest) =>
      let step := processLine jparse core (stripCR line)
      if step.1.terminal then (rest, step.1, step.2)
      else
        let next := processBufferFuel jparse f rest step.1
        (next.1, next.2.1, step.2 ++ next.2.2)

/-- `SSEParser::processBuffer`: repeatedly extract complete lines and
process them, stopping early when a terminal state is reached; the trailing
partial line stays buffered. -/
def processBuffer (jparse : List Char → Option Json) (buf : List Char) (core : Core) :
    List Char × Core × List CbEvent :=
  processBufferFuel jparse buf.length buf core

/-- `SSEParser::feed`: a no-op in a terminal state; otherwise append the
incoming bytes to the buffer and drain complete lines. -/
def feed (jparse : List Char → Option Json) (st : PState) (data : List Char) :
    PState × List CbEvent :=
  if st.core.terminal then (st, [])
  else
    let r := processBuffer jparse (st.buffer ++ data) st.core
    (⟨r.1, r.2.1⟩, r.2.2)

/-- A sequence of `feed` calls, with the traces concatenated. -/
def feedChunks (jparse : List Char → Option Json) (st : PState) :
    List (List Char) → PState × List CbEvent
  | [] => (st, [])
  | c :: cs =>
    let r1 := feed jparse st c
    let r2 := feedChunks jparse r1.1 cs
    (r2.1, r1.2 ++ r2.2)

/-- Shorthand: a JSON object from an association list. -/
def jobj (l : List (String × Json)) : Json := .obj (JM.ofList l)

/-- Shorthand: a JSON array from a list. -/
def jarr (l : List Json) : Json := .arr (JL.ofList l)

/-- A Format A delta line carrying only a text fragment:
`{"choices":[{"delta":{"content":text}}]}`. -/
def oaContentJson (text : String) : Json :=
  jobj [("choices", jarr [jobj [("delta", jobj [("content", .str text)])]])]

/-- A Format A delta line carrying the given tool-call fragments:
`{"choices":[{"delta":{"tool_calls":[…]}}]}`. -/
def oaToolCallsJson (tcs : List Json) : Json :=
  jobj [("choices", jarr [jobj [("delta", jobj [("tool_calls", jarr tcs)])]])]

/-- A tool-call fragment opening a call at `index`:
`{"index":index,"id":id,"function":{"name":name,"arguments":arg}}`. -/
def oaHeadFrag (index : Int) (id name arg : String) : Json :=
  jobj [("index", .num index), ("id", .str id),
        ("function", jobj [("name", .str name), ("arguments", .str arg)])]

/-- A tool-call fragment continuing a call at `index`:
`{"index":index,"function":{"arguments":arg}}`. -/
def oaTailFrag (index : Int) (arg : String) : Json :=
  jobj [("index", .num index), ("function", jobj [("arguments", .str arg)])]

/-- A Format A delta line opening a tool call at `index`. -/
def oaHeadJson (index : Int) (id name arg : String) : Json :=
  oaToolCallsJson [oaHeadFrag index id name arg]

/-- A Format A delta line continuing a tool call at `index`. -/
def oaTailJson (index : Int) (arg : String) : Json :=
  oaToolCallsJson [oaTailFrag index arg]

/-- A Format C part `{"functionCall":{"name":name,"args":args}}`. -/
def gemPartJson (name : String) (args : Json) : Json :=
  jobj [("functionCall", jobj [("name", .str name), ("args", args)])]

/-- A Format C data line whose single candidate carries the given
function-call parts and, when `finishReason` is non-empty, a
`finishReason` member. -/
def gemLineJson (calls : List (String × Json)) (finishReason : String) : Json :=
  jobj [("candidates", jarr [jobj
    ([("content", jobj [("parts", jarr (calls.map (fun p => gemPartJson p.1 p.2)))])] ++
     (if finishReason.isEmpty then [] else [("finishReason", Json.str finishReason)]))])]

/-- A concrete, finite interpretation of ArduinoJson's `deserializeJson`,
used by the closed theorems: each entry maps one literal JSON text to the
value a conforming JSON parser produces for it; every unlisted text —
in particular the malformed `notjson` — maps to a parse error.  (In the
JSON texts below `\x7b`/`\x7d` are the ordinary brace characters.) -/
def jfix (s : List Char) : Option Json :=
  if s = "\x7b\"choices\":[\x7b\"delta\":\x7b\"content\":\"Hi\"\x7d\x7d]\x7d".data then
    some (oaContentJson "Hi")
  else if s = "\x7b\"choices\":[\x7b\"delta\":\x7b\"content\":\" there\"\x7d\x7d]\x7d".data then
    some (oaContentJson " there")
  else if s = "\x7b\"type\":\"ping\"\x7d".data then
    some (jobj [("type", .str "ping")])
  else if s = "\x7b\"type\":\"message_start\"\x7d".data then
    some (jobj [("type", .str "message_start")])
  else if s = "\x7b\"type\":\"content_block_stop\"\x7d".data then
    some (jobj [("type", .str "content_block_stop")])
  else if s = "\x7b\"type\":\"content_block_start\",\"content_block\":\x7b\"type\":\"tool_use\",\"id\":\"t1\",\"name\":\"g\"\x7d\x7d".data then
    some (jobj [("type", .str "content_block_start"),
                ("content_block", jobj [("type", .str "tool_use"),
                                        ("id", .str "t1"), ("name", .str "g")])])
  else if s = "\x7b\"choices\":[\x7b\"delta\":\x7b\"tool_calls\":[\x7b\"index\":0,\"id\":\"call_1\",\"function\":\x7b\"name\":\"f\",\"arguments\":\"\x7b\\\"a\\\":\"\x7d\x7d]\x7d\x7d]\x7d".data then
    some (oaHeadJson 0 "call_1" "f" "\x7b\"a\":")
  else if s = "\x7b\"choices\":[\x7b\"delta\":\x7b\"tool_calls\":[\x7b\"index\":0,\"function\":\x7b\"arguments\":\"1\x7d\"\x7d\x7d]\x7d\x7d]\x7d".data then
    some (oaTailJson 0 "1\x7d")
  else if s = "\x7b\"candidates\":[\x7b\"content\":\x7b\"parts\":[\x7b\"functionCall\":\x7b\"name\":\"get_weather\",\"args\":\x7b\"location\":\"Paris\"\x7d\x7d\x7d]\x7d,\"finishReason\":\"STOP\"\x7d]\x7d".data then
    some (gemLineJson [("get_weather", jobj [("location", .str "Paris")])] "STOP")
  else if s = "\x7b\"candidates\":[\x7b\"content\":\x7b\"parts\":[\x7b\"functionCall\":\x7b\"name\":\"f\",\"args\":\x7b\x7d\x7d\x7d,\x7b\"functionCall\":\x7b\"name\":\"f\",\"args\":\x7b\x7d\x7d\x7d,\x7b\"functionCall\":\x7b\"name\":\"f\",\"args\":\x7b\x7d\x7d\x7d,\x7b\"functionCall\":\x7b\"name\":\"f\",\"args\":\x7b\x7d\x7d\x7d,\x7b\"functionCall\":\x7b\"name\":\"f\",\"args\":\x7b\x7d\x7d\x7d,\x7b\"functionCall\":\x7b\"name\":\"f\",\"args\":\x7b\x7d\x7d\x7d,\x7b\"functionCall\":\x7b\"name\":\"f\",\"args\":\x7b\x7d\x7d\x7d,\x7b\"functionCall\":\x7b\"name\":\"f\",\"args\":\x7b\x7d\x7d\x7d,\x7b\"functionCall\":\x7b\"name\":\"f\",\"args\":\x7b\x7d\x7d\x7d,\x7b\"functionCall\":\x7b\"name\":\"f\",\"args\":\x7b\x7d\x7d\x7d,\x7b\"functionCall\":\x7b\"name\":\"f\",\"args\":\x7b\x7d\x7d\x7d]\x7d\x7d]\x7d".data then
    some (gemLineJson (List.replicate 11 ("f", jobj [])) "")
  else
    none

/-- A well-formed SSE data payload, as it sits between `data: ` and the
line's newline: it contains no newline (it is one line), does not begin
with a space (leading spaces after the colon are stripped before it) and
does not end in a carriage return (a trailing `'\r'` belongs to the line
ending and is stripped). -/
def goodPayload (s : List Char) : Prop :=
  '\n' ∉ s ∧ s.head? ≠ some ' ' ∧ s.getLast? ≠ some '\r'

instance (s : List Char) : Decidable (goodPayload s) := by
  unfold goodPayload
  infer_instance

/-- The pending tool calls Format C synthesizes for consecutive
function-call parts, starting at pending-list position `n`: ids
`gemini_tc_<n>`, `gemini_tc_<n+1>`, …, names as given, arguments the
serialized `args` objects. -/
def geminiExpected : Nat → List (String × Json) → List PendingToolCall
  | _, [] => []
  | n, p :: rest =>
    ⟨"gemini_tc_" ++ toString n, p.1, serializeJson p.2⟩ :: geminiExpected (n + 1) rest

/-- `RetryConfig` from `src/core/AITypes.h`.  `maxRetries` is `uint8_t`,
the delays are `uint32_t` milliseconds; the `float backoffMultiplier` is
modelled as an exact rational (the multiplier values the claims exercise
are exactly representable, and their powers and products here stay exact
in `float`). -/
structure RetryConfig : Type where
  enabled : Bool
  maxRetries : Nat
  initialDelayMs : Nat
  backoffMultiplier : ℚ
  maxDelayMs : Nat
deriving DecidableEq, Repr

/-- `AIProvider::isRetryableStatus`: 429 or any 5xx. -/
def isRetryableStatus (statusCode : Int) : Bool :=
  statusCode = 429 || (500 ≤ statusCode && statusCode < 600)

/-- `AIProvider::calculateRetryDelay`.  A positive `retryAfterSeconds`
hint is converted to milliseconds in 32-bit unsigned arithmetic
(`static_cast<uint32_t>(retryAfterSeconds) * 1000` wraps modulo `2^32`)
and clamped to `maxDelayMs`; otherwise the exponential backoff product is
computed in floating point (exact rationals here), returned as
`maxDelayMs` when it reaches it and truncated to an integer otherwise. -/
def calculateRetryDelay (config : RetryConfig) (attempt : Nat) (retryAfterSeconds : Int) :
    Nat :=
  if 0 < retryAfterSeconds then
    let retryAfterMs := retryAfterSeconds.toNat * 1000 % 2 ^ 32
    if retryAfterMs < config.maxDelayMs then retryAfterMs else config.maxDelayMs
  else
    let delay : ℚ := (config.initialDelayMs : ℚ) * config.backoffMultiplier ^ attempt
    if (config.maxDelayMs : ℚ) ≤ delay then config.maxDelayMs
    else ⌊delay⌋.toNat

/-- The retry delay exactly as claim C7 words it: hint path
`hint*1000 milliseconds clamped to maxDelay` (no 32-bit wrap), backoff path
`initialDelay * backoffMultiplier^attemptIndex` clamped to `maxDelay`. -/
def delayForClaim (config : RetryConfig) (attempt : Nat) (retryAfterSeconds : Int) : Nat :=
  if 0 < retryAfterSeconds then
    min (retryAfterSeconds.toNat * 1000) config.maxDelayMs
  else
    min ⌊(config.initialDelayMs : ℚ) * config.backoffMultiplier ^ attempt⌋.toNat
      config.maxDelayMs

/-- The retry delay as claim C7 amended: identical to `delayForClaim`
except that the hint conversion to milliseconds is performed in wrapping
32-bit unsigned arithmetic, as the code does. -/
def delayForAmended (config : RetryConfig) (attempt : Nat) (retryAfterSeconds : Int) : Nat :=
  if 0 < retryAfterSeconds then
    min (retryAfterSeconds.toNat * 1000 % 2 ^ 32) config.maxDelayMs
  else
    min ⌊(config.initialDelayMs : ℚ) * config.backoffMultiplier ^ attempt⌋.toNat
      config.maxDelayMs

/-- `HttpResponse`.  The `statusCode`/`body`/`success` fields are declared
in `src/providers/AIProvider.h`; `responseTooLarge` and
`retryAfterSeconds` are the oversized flag and server retry-after hint the
transport fills in (`src/http/HttpTransportESP32.cpp`) and
`AIProvider::chat` consumes. -/
structure HttpResponse : Type where
  statusCode : Int
  body : String
  success : Bool
  responseTooLarge : Bool
  retryAfterSeconds : Int
deriving DecidableEq, Repr

/-- `Response` from `src/core/AITypes.h` (the result of one run). -/
structure Response : Type where
  success : Bool
  content : String
  error : ErrorCode
  errorMessage : String
  httpStatus : Int
  promptTokens : Nat
  completionTokens : Nat
deriving DecidableEq, Repr

/-- Default-constructed `Response()`. -/
def Response.empty : Response :=
  ⟨false, "", .None, "", 0, 0, 0⟩

instance : Inhabited Response := ⟨Response.empty⟩

/-- `Response::ok`. -/
def Response.ok (content : String) : Response :=
  { Response.empty with success := true, content := content }

/-- `Response::fail(code, message, status)`. -/
def Response.fail (code : ErrorCode) (message : String) (status : Int) : Response :=
  { Response.empty with error := code, errorMessage := message, httpStatus := status }

/-- `AIProvider::handleHttpError` (`src/providers/AIProvider.h`): classify
a failure status and surface the response body as the error message. -/
def handleHttpError (statusCode : Int) (body : String) : Response :=
  let code : ErrorCode :=
    if statusCode = 401 ∨ statusCode = 403 then .AuthError
    else if statusCode = 429 then .RateLimited
    else if 400 ≤ statusCode ∧ statusCode < 500 then .InvalidRequest
    else if statusCode = 0 then .NetworkError
    else .ServerError
  Response.fail code body statusCode

/-- Observable outcome of one `AIProvider::chat` run: the returned
`Response`, how many times `transport->execute` ran, and the argument of
each `delay(...)` sleep in order. -/
structure ChatOutcome : Type where
  response : Response
  transportCalls : Nat
  sleeps : List Nat
deriving DecidableEq, Repr

/-- The final-failure branch of `AIProvider::chat`: an oversized-flagged
response becomes a `ResponseTooLarge` error carrying the body, any other
failure is classified by `handleHttpError`. -/
def finishFailure (resp : HttpResponse) : Response :=
  if resp.responseTooLarge then Response.fail .ResponseTooLarge resp.body resp.statusCode
  else handleHttpError resp.statusCode resp.body

/-- The retry loop of `AIProvider::chat`, by remaining attempts.
`transport i` is the response of `transport->execute` on attempt `i`;
`ready i` is the `transport->isReady()` check made after the sleep that
follows a failed attempt `i`; `parseResponse` is the abstract per-vendor
response decoder.  The `0` case is unreachable: the loop is entered with
`maxAttempts ≥ 1` remaining (it mirrors the C++ loop body never running,
leaving the default-constructed failing response). -/
def chatGo (cfg : RetryConfig) (transport : Nat → HttpResponse) (ready : Nat → Bool)
    (parseResponse : String → Response) : Nat → Nat → ChatOutcome
  | _, 0 => { response := handleHttpError 0 "", transportCalls := 0, sleeps := [] }
  | attempt, remaining + 1 =>
    let resp := transport attempt
    if resp.success then
      { response := { parseResponse resp.body with httpStatus := resp.statusCode },
        transportCalls := 1, sleeps := [] }
    else if remaining = 0 ∨ cfg.enabled = false ∨ isRetryableStatus resp.statusCode = false then
      { response := finishFailure resp, transportCalls := 1, sleeps := [] }
    else
      let d := calculateRetryDelay cfg attempt resp.retryAfterSeconds
      if ready attempt = false then
        { response := Response.fail .NetworkError "Network lost during retry" 0,
          transportCalls := 1, sleeps := [d] }
      else
        let o := chatGo cfg transport ready parseResponse (attempt + 1) remaining
        { response := o.response, transportCalls := o.transportCalls + 1,
          sleeps := d :: o.sleeps }

/-- `enabled ? maxRetries + 1 : 1`. -/
def maxAttempts (cfg : RetryConfig) : Nat :=
  if cfg.enabled then cfg.maxRetries + 1 else 1

/-- `AIProvider::chat` single-shot execution: the three entry guards
(provider configured, transport present, network ready) and then the retry
loop over at most `maxAttempts` attempts. -/
def chat (cfg : RetryConfig) (configured transportPresent ready0 : Bool)
    (transport : Nat → HttpResponse) (ready : Nat → Bool)
    (parseResponse : String → Response) : ChatOutcome :=
  if configured = false then
    ⟨Response.fail .NotConfigured "Provider not configured" 0, 0, []⟩
  else if transportPresent = false then
    ⟨Response.fail .NotConfigured "HTTP transport not available" 0, 0, []⟩
  else if ready0 = false then
    ⟨Response.fail .NetworkError "Network not ready" 0, 0, []⟩
  else
    chatGo cfg transport ready parseResponse 0 (maxAttempts cfg)

/-- Failure classification as claim C5 words it: 401/403 → AuthError,
429 → RateLimited, other 4xx → InvalidRequest, 0 → NetworkError, else
ServerError, with the response body as the error message. -/
def classifyClaim (statusCode : Int) (body : String) : Response :=
  Response.fail
    (if statusCode = 401 ∨ statusCode = 403 then .AuthError
     else if statusCode = 429 then .RateLimited
     else if statusCode ≠ 429 ∧ 400 ≤ statusCode ∧ statusCode < 500 then .InvalidRequest
     else if statusCode = 0 then .NetworkError
     else .ServerError)
    body statusCode

/-- The single-shot execution loop as claim C5 (and spec §4.3) words it:
stop at the first success; on failure stop if this is the last attempt,
retries are disabled, or the status is not retryable; otherwise sleep the
computed delay (amended hint semantics) and abort with a network-lost
error when the transport is unavailable after the sleep; on final failure
report oversized responses as `ResponseTooLarge` and classify the status
otherwise. -/
def chatSpecGo (cfg : RetryConfig) (transport : Nat → HttpResponse) (ready : Nat → Bool)
    (parseResponse : String → Response) : Nat → Nat → ChatOutcome
  | _, 0 => { response := handleHttpError 0 "", transportCalls := 0, sleeps := [] }
  | attempt, remaining + 1 =>
    let resp := transport attempt
    if resp.success then
      { response := { parseResponse resp.body with httpStatus := resp.statusCode },
        transportCalls := 1, sleeps := [] }
    else if remaining = 0 ∨ isRetryableStatus resp.statusCode = false ∨ cfg.enabled = false then
      { response :=
          if resp.responseTooLarge then Response.fail .ResponseTooLarge resp.body resp.statusCode
          else classifyClaim resp.statusCode resp.body,
        transportCalls := 1, sleeps := [] }
    else
      let d := delayForAmended cfg attempt resp.retryAfterSeconds
      if ready attempt = false then
        { response := Response.fail .NetworkError "Network lost during retry" 0,
          transportCalls := 1, sleeps := [d] }
      else
        let o := chatSpecGo cfg transport ready parseResponse (attempt + 1) remaining
        { response := o.response, transportCalls := o.transportCalls + 1,
          sleeps := d :: o.sleeps }

/-- `AsyncStatus` from `src/async/AsyncTaskRunner.h`. -/
inductive AsyncStatus : Type
  | Idle
  | Running
  | Completed
  | Cancelled
  | Error
deriving DecidableEq, Repr

/-- The fields of `ChatRequest` that launch/poll/cancel and the worker
read and write (the mutex serializes every such access; each action below
is one critical section).  `hasCallback` models whether a non-null
`_onComplete` is registered. -/
structure RunnerCore : Type where
  status : AsyncStatus
  result : Response
  cancelRequested : Bool
  callbackInvoked : Bool
  hasCallback : Bool
deriving DecidableEq, Repr

/-- The state of a freshly constructed `AsyncTaskRunner`'s `_request`. -/
def runnerInit : RunnerCore :=
  ⟨.Idle, Response.empty, false, false, false⟩

/-- `ChatRequest::isComplete`: Completed, Cancelled or Error. -/
def RunnerCore.isComplete (st : RunnerCore) : Bool :=
  st.status = .Completed || st.status = .Cancelled || st.status = .Error

/-- Who invoked the completion callback. -/
inductive CbSource : Type
  | fromPoll
  | fromLaunch
deriving DecidableEq, Repr

/-- One completion-callback invocation. -/
structure CbInvocation : Type where
  source : CbSource
  result : Response
deriving DecidableEq, Repr

/-- `ChatRequest::poll`: `false` while not complete; once complete, the
first poll flips `_callbackInvoked` under the mutex and invokes the
callback (when registered), every later poll returns `true` silently. -/
def pollStep (st : RunnerCore) : RunnerCore × List CbInvocation × Bool :=
  if st.isComplete = false then (st, [], false)
  else if st.callbackInvoked then (st, [], true)
  else
    ({ st with callbackInvoked := true },
     if st.hasCallback then [⟨.fromPoll, st.result⟩] else [], true)

/-- `AsyncTaskRunner::launch`: rejected while Running; otherwise the run
fields are reset and the worker task is created.  When task creation fails
(`createOk = false`), the status becomes Error with an out-of-memory
result and `launch` itself invokes the callback — without setting
`_callbackInvoked`. -/
def launchStep (st : RunnerCore) (hasCb : Bool) (createOk : Bool) :
    RunnerCore × List CbInvocation × Bool :=
  if st.status = .Running then (st, [], false)
  else
    let st1 : RunnerCore :=
      ⟨.Running, Response.empty, false, false, hasCb⟩
    if createOk then (st1, [], true)
    else
      let failResult := Response.fail .OutOfMemory "Failed to create async task" 0
      let stF := { st1 with status := AsyncStatus.Error, result := failResult }
      (stF, if hasCb then [⟨.fromLaunch, failResult⟩] else [], false)

/-- The tail of `AsyncTaskRunner::taskFunction`, run on the worker when the
task body finishes with `taskResult`: under the mutex, a requested
cancellation records Cancelled with a cancellation failure, otherwise the
result decides Completed or Error.  The worker never touches
`_onComplete` or `_callbackInvoked`, so it can invoke no callback. -/
def workerFinishStep (st : RunnerCore) (taskResult : Response) : RunnerCore :=
  if st.cancelRequested then
    { st with status := AsyncStatus.Cancelled,
              result := Response.fail .NetworkError "Request cancelled" 0 }
  else
    { st with status := if taskResult.success then AsyncStatus.Completed else AsyncStatus.Error,
              result := taskResult }

/-- `ChatRequest::cancel`: sets the cancellation flag. -/
def cancelStep (st : RunnerCore) : RunnerCore :=
  { st with cancelRequested := true }

/-- One serialized action on the shared run state: a caller launch (with
the callback-registered and task-creation-success outcomes), the worker
finishing, a caller poll, or a caller cancel. -/
inductive RunnerAction : Type
  | launch (hasCb : Bool) (createOk : Bool)
  | workerFinish (taskResult : Response)
  | poll
  | cancel
deriving DecidableEq, Repr

/-- Apply one action; yields the next state and the callback invocations
the action performed. -/
def runnerStep (st : RunnerCore) (a : RunnerAction) : RunnerCore × List CbInvocation :=
  match a with
  | .launch hasCb createOk =>
    let r := launchStep st hasCb createOk
    (r.1, r.2.1)
  | .workerFinish taskResult => (workerFinishStep st taskResult, [])
  | .poll =>
    let r := pollStep st
    (r.1, r.2.1)
  | .cancel => (cancelStep st, [])

/-- The state after a sequence of actions. -/
def runnerStateAfter (st : RunnerCore) : List RunnerAction → RunnerCore
  | [] => st
  | a :: rest => runnerStateAfter (runnerStep st a).1 rest

/-- The callback invocations performed by the `i`-th action of `acts`
(counting from 0), starting from `st`. -/
def runnerEventsAt (st : RunnerCore) (acts : List RunnerAction) (i : Nat) :
    List CbInvocation :=
  (runnerStep (runnerStateAfter st (acts.take i)) (acts.getD i .cancel)).2

/-- All callback invocations performed by a sequence of actions. -/
def runnerAllEvents (st : RunnerCore) : List RunnerAction → List CbInvocation
  | [] => []
  | a :: rest =>
    let r := runnerStep st a
    r.2 ++ runnerAllEvents r.1 rest

/-- Whether an action is a launch. -/
def RunnerAction.isLaunch : RunnerAction → Bool
  | .launch _ _ => true
  | _ => false

/-- Whether an action is a launch whose task creation fails. -/
def RunnerAction.isFailedLaunch : RunnerAction → Bool
  | .launch _ createOk => !createOk
  | _ => false

/-! ### Lemmas: retry policy and the single-shot loop -/

theorem calculateRetryDelay_eq_amended (cfg : RetryConfig) (attempt : Nat) (hint : Int) :
    calculateRetryDelay cfg attempt hint = delayForAmended cfg attempt hint := by
  unfold calculateRetryDelay delayForAmended
  by_cases hpos : 0 < hint
  · simp only [if_pos hpos]
    split_ifs with h <;> omega
  · simp only [if_neg hpos]
    set delay : ℚ := (cfg.initialDelayMs : ℚ) * cfg.backoffMultiplier ^ attempt with hdelay
    by_cases hle : (cfg.maxDelayMs : ℚ) ≤ delay
    · have h1 : (cfg.maxDelayMs : Int) ≤ ⌊delay⌋ := by
        rw [Int.le_floor]
        exact_mod_cast hle
      have h2 : cfg.maxDelayMs ≤ ⌊delay⌋.toNat := by omega
      simp [if_pos hle, Nat.min_eq_right h2]
    · have h1 : (⌊delay⌋ : ℚ) ≤ delay := Int.floor_le delay
      have h2 : delay < (cfg.maxDelayMs : ℚ) := lt_of_not_le hle
      have h3 : (⌊delay⌋ : ℚ) < (cfg.maxDelayMs : ℚ) := lt_of_le_of_lt h1 h2
      have h4 : ⌊delay⌋ < (cfg.maxDelayMs : Int) := by exact_mod_cast h3
      have h5 : ⌊delay⌋.toNat ≤ cfg.maxDelayMs := by omega
      simp [if_neg hle, Nat.min_eq_left h5]

theorem finishFailure_eq_claim (resp : HttpResponse) :
    finishFailure resp =
      (if resp.responseTooLarge then Response.fail .ResponseTooLarge resp.body resp.statusCode
       else classifyClaim resp.statusCode resp.body) := by
  unfold finishFailure handleHttpError classifyClaim
  by_cases h : resp.responseTooLarge
  · simp [h]
  · simp only [h, Bool.false_eq_true, if_false]
    congr 1
    split_ifs <;> first | rfl | omega

theorem chatGo_eq_spec (cfg : RetryConfig) (transport : Nat → HttpResponse)
    (ready : Nat → Bool) (parseResponse : String → Response) (attempt remaining : Nat) :
    chatGo cfg transport ready parseResponse attempt remaining =
      chatSpecGo cfg transport ready parseResponse attempt remaining := by
  induction remaining generalizing attempt with
  | zero => rfl
  | succ r ih =>
    unfold chatGo chatSpecGo
    by_cases hs : (transport attempt).success
    · simp [hs]
    · have hcond :
        (r = 0 ∨ cfg.enabled = false ∨ isRetryableStatus (transport attempt).statusCode = false)
          ↔ (r = 0 ∨ isRetryableStatus (transport attempt).statusCode = false ∨
             cfg.enabled = false) := by tauto
      simp only [hs, Bool.false_eq_true, if_false]
      rw [if_congr hcond rfl rfl]
      by_cases hstop :
          r = 0 ∨ isRetryableStatus (transport attempt).statusCode = false ∨
            cfg.enabled = false
      · simp [hstop, finishFailure_eq_claim]
      · simp [hstop, calculateRetryDelay_eq_amended, ih]

theorem chatGo_calls_le (cfg : RetryConfig) (transport : Nat → HttpResponse)
    (ready : Nat → Bool) (parseResponse : String → Response) (attempt remaining : Nat) :
    (chatGo cfg transport ready parseResponse attempt remaining).transportCalls ≤ remaining := by
  induction remaining generalizing attempt with
  | zero => simp [chatGo]
  | succ r ih =>
    unfold chatGo
    by_cases hs : (transport attempt).success
    · simp [hs]
    · simp only [hs, Bool.false_eq_true, if_false]
      by_cases hstop :
          r = 0 ∨ cfg.enabled = false ∨ isRetryableStatus (transport attempt).statusCode = false
      · simp [hstop]
      · simp only [hstop, if_false]
        by_cases hrd : ready attempt = false
        · simp [hrd]
        · simp only [hrd, if_false]
          exact Nat.succ_le_succ (ih (attempt + 1))

theorem chatGo_stops_at_first_success (cfg : RetryConfig) (transport : Nat → HttpResponse)
    (ready : Nat → Bool) (parseResponse : String → Response) (attempt remaining i : Nat)
    (hi : i + 1 < (chatGo cfg transport ready parseResponse attempt remaining).transportCalls) :
    (transport (attempt + i)).success = false := by
  induction remaining generalizing attempt i with
  | zero => simp [chatGo] at hi
  | succ r ih =>
    unfold chatGo at hi
    by_cases hs : (transport attempt).success
    · simp [hs] at hi
    · simp only [hs, Bool.false_eq_true, if_false] at hi
      by_cases hstop :
          r = 0 ∨ cfg.enabled = false ∨ isRetryableStatus (transport attempt).statusCode = false
      · simp [hstop] at hi
      · simp only [hstop, if_false] at hi
        by_cases hr : ready attempt = false
        · simp [hr] at hi
        · simp only [hr, if_false] at hi
          match i with
          | 0 => simpa using hs
          | j + 1 =>
            have := ih (attempt + 1) j (by simpa using hi)
            simpa [Nat.add_assoc, Nat.add_comm 1 j] using this

/-! ### Lemmas: the SSE parser's feed loop -/

theorem splitline_structure : ∀ {buf l r : List Char},
    splitline buf = some (l, r) → buf = l ++ '\n' :: r := by
  intro buf
  induction buf with
  | nil => intro l r h; simp [splitline] at h
  | cons c rest ih =>
    intro l r h
    rw [splitline] at h
    split_ifs at h with hc
    · simp only [Option.some.injEq, Prod.mk.injEq] at h
      obtain ⟨h1, h2⟩ := h
      subst hc
      rw [← h1, ← h2]
      rfl
    · cases hsr : splitline rest with
      | none => rw [hsr] at h; simp at h
      | some p =>
        obtain ⟨l', r'⟩ := p
        rw [hsr] at h
        simp only [Option.some.injEq, Prod.mk.injEq] at h
        obtain ⟨h1, h2⟩ := h
        rw [← h1, ← h2]
        simpa using ih hsr

theorem splitline_append_some {buf l r : List Char} (s : List Char)
    (h : splitline buf = some (l, r)) :
    splitline (buf ++ s) = some (l, r ++ s) := by
  induction buf generalizing l r with
  | nil => simp [splitline] at h
  | cons c rest ih =>
    simp only [List.cons_append]
    rw [splitline] at h ⊢
    split_ifs at h ⊢ with hc
    · simp only [Option.some.injEq, Prod.mk.injEq] at h
      obtain ⟨h1, h2⟩ := h
      rw [← h1, ← h2]
    · cases hsr : splitline rest with
      | none => rw [hsr] at h; simp at h
      | some p =>
        obtain ⟨l', r'⟩ := p
        rw [hsr] at h
        simp only [Option.some.injEq, Prod.mk.injEq] at h
        obtain ⟨h1, h2⟩ := h
        rw [ih hsr]
        rw [← h1, ← h2]

theorem splitline_rest_shorter {buf l r : List Char}
    (h : splitline buf = some (l, r)) : r.length < buf.length := by
  have := splitline_structure h
  subst this
  simp
  omega

theorem processBufferFuel_irrel (jp : List Char → Option Json) :
    ∀ (f g : Nat) (buf : List Char) (core : Core), buf.length ≤ f → buf.length ≤ g →
      processBufferFuel jp f buf core = processBufferFuel jp g buf core := by
  intro f
  induction f with
  | zero =>
    intro g buf core hf hg
    have hbuf : buf = [] := List.length_eq_zero.mp (Nat.le_zero.mp hf)
    subst hbuf
    cases g with
    | zero => rfl
    | succ g' => rfl
  | succ f ihf =>
    intro g buf core hf hg
    cases g with
    | zero =>
      have hbuf : buf = [] := List.length_eq_zero.mp (Nat.le_zero.mp hg)
      subst hbuf
      rfl
    | succ g' =>
      simp only [processBufferFuel]
      cases hsp : splitline buf with
      | none => rfl
      | some p =>
        obtain ⟨line, rest⟩ := p
        have hlen : rest.length < buf.length := splitline_rest_shorter hsp
        by_cases ht : (processLine jp core (stripCR line)).1.terminal
        · simp [ht]
        · simp only [ht, Bool.false_eq_true, if_false]
          rw [ihf g' rest (processLine jp core (stripCR line)).1 (by omega) (by omega)]

theorem processBuffer_unfold (jp : List Char → Option Json) (buf : List Char) (core : Core) :
    processBuffer jp buf core =
      (match splitline buf with
       | none => (buf, core, [])
       | some (line, rest) =>
         let step := processLine jp core (stripCR line)
         if step.1.terminal then (rest, step.1, step.2)
         else
           let next := processBuffer jp rest step.1
           (next.1, next.2.1, step.2 ++ next.2.2)) := by
  cases buf with
  | nil => rfl
  | cons c rest' =>
    show processBufferFuel jp (rest'.length + 1) (c :: rest') core = _
    simp only [processBufferFuel]
    cases hsp : splitline (c :: rest') with
    | none => rfl
    | some p =>
      obtain ⟨line, rest⟩ := p
      have hlen : rest.length < (c :: rest').length := splitline_rest_shorter hsp
      by_cases ht : (processLine jp core (stripCR line)).1.terminal
      · simp [ht]
      · simp only [ht, Bool.false_eq_true, if_false]
        unfold processBuffer
        rw [processBufferFuel_irrel jp rest'.length rest.length rest
          (processLine jp core (stripCR line)).1 (by simpa using Nat.lt_succ_iff.mp hlen) le_rfl]

theorem processBuffer_none (jp : List Char → Option Json) {buf : List Char} (core : Core)
    (h : splitline buf = none) : processBuffer jp buf core = (buf, core, []) := by
  rw [processBuffer_unfold, h]

theorem processBuffer_append (jp : List Char → Option Json) :
    ∀ (n : Nat) (buf s : List Char) (core : Core), buf.length ≤ n →
      core.terminal = false →
      processBuffer jp (buf ++ s) core =
        (let r1 := processBuffer jp buf core
         if r1.2.1.terminal then (r1.1 ++ s, r1.2.1, r1.2.2)
         else
           let r2 := processBuffer jp (r1.1 ++ s) r1.2.1
           (r2.1, r2.2.1, r1.2.2 ++ r2.2.2)) := by
  intro n
  induction n with
  | zero =>
    intro buf s core hn hterm
    have hbuf : buf = [] := List.length_eq_zero.mp (Nat.le_zero.mp hn)
    subst hbuf
    rw [@processBuffer_none jp [] core rfl]
    simp [hterm]
  | succ n ihn =>
    intro buf s core hn hterm
    cases hsp : splitline buf with
    | none =>
      rw [@processBuffer_none jp buf core hsp]
      simp [hterm]
    | some p =>
      obtain ⟨line, rest⟩ := p
      have hsp2 : splitline (buf ++ s) = some (line, rest ++ s) :=
        splitline_append_some s hsp
      have hrest : rest.length ≤ n := by
        have := splitline_rest_shorter hsp
        omega
      rw [processBuffer_unfold jp (buf ++ s), hsp2, processBuffer_unfold jp buf, hsp]
      by_cases ht : (processLine jp core (stripCR line)).1.terminal
      · simp [ht]
      · simp only [ht, Bool.false_eq_true, if_false]
        rw [ihn rest s (processLine jp core (stripCR line)).1 hrest (by simpa using ht)]
        by_cases ht2 : (processBuffer jp rest (processLine jp core (stripCR line)).1).2.1.terminal
        · simp [ht2]
        · simp [ht2, List.append_assoc]

theorem processBuffer_drained (jp : List Char → Option Json) :
    ∀ (n : Nat) (buf : List Char) (core : Core), buf.length ≤ n →
      (processBuffer jp buf core).2.1.terminal = false →
      splitline (processBuffer jp buf core).1 = none := by
  intro n
  induction n with
  | zero =>
    intro buf core hn _
    have hbuf : buf = [] := List.length_eq_zero.mp (Nat.le_zero.mp hn)
    subst hbuf
    rw [@processBuffer_none jp [] core rfl]
    rfl
  | succ n ihn =>
    intro buf core hn hres
    cases hsp : splitline buf with
    | none =>
      rw [@processBuffer_none jp buf core hsp]
      exact hsp
    | some p =>
      obtain ⟨line, rest⟩ := p
      have hrest : rest.length ≤ n := by
        have := splitline_rest_shorter hsp
        omega
      rw [processBuffer_unfold jp buf, hsp] at hres ⊢
      by_cases ht : (processLine jp core (stripCR line)).1.terminal
      · simp [ht] at hres
      · simp only [ht, Bool.false_eq_true, if_false] at hres ⊢
        exact ihn rest (processLine jp core (stripCR line)).1 hrest (by simpa using hres)

theorem feed_append (jp : List Char → Option Json) (st : PState) (s1 s2 : List Char) :
    (feed jp st (s1 ++ s2)).1.core = (feed jp (feed jp st s1).1 s2).1.core ∧
    (feed jp st (s1 ++ s2)).2 = (feed jp st s1).2 ++ (feed jp (feed jp st s1).1 s2).2 ∧
    ∃ r, (feed jp st (s1 ++ s2)).1.buffer = (feed jp (feed jp st s1).1 s2).1.buffer ++ r ∧
      ((feed jp (feed jp st s1).1 s2).1.core.terminal = false → r = []) := by
  by_cases hterm : st.core.terminal
  · refine ⟨by simp [feed, hterm], by simp [feed, hterm], [], by simp [feed, hterm], ?_⟩
    intro
    rfl
  · have hterm' : st.core.terminal = false := by simpa using hterm
    have happ := processBuffer_append jp (st.buffer ++ s1).length (st.buffer ++ s1) s2
      st.core le_rfl hterm'
    rw [List.append_assoc] at happ
    by_cases ht1 : (processBuffer jp (st.buffer ++ s1) st.core).2.1.terminal
    · simp only [ht1, if_true] at happ
      refine ⟨?_, ?_, s2, ?_, ?_⟩
      · simp [feed, hterm', happ, ht1]
      · simp [feed, hterm', happ, ht1]
      · simp [feed, hterm', happ, ht1]
      · intro hcon
        simp [feed, hterm', ht1] at hcon
    · simp only [ht1, Bool.false_eq_true, if_false] at happ
      refine ⟨?_, ?_, [], ?_, ?_⟩
      · simp [feed, hterm', happ, ht1]
      · simp [feed, hterm', happ, ht1]
      · simp [feed, hterm', happ, ht1]
      · intro
        rfl

theorem feedChunks_obs (jp : List Char → Option Json) :
    ∀ (chunks : List (List Char)) (st : PState),
      (st.core.terminal = true ∨ splitline st.buffer = none) →
      (feedChunks jp st chunks).1.core = (feed jp st chunks.flatten).1.core ∧
      (feedChunks jp st chunks).2 = (feed jp st chunks.flatten).2 ∧
      ∃ r, (feed jp st chunks.flatten).1.buffer = (feedChunks jp st chunks).1.buffer ++ r ∧
        ((feedChunks jp st chunks).1.core.terminal = false → r = []) := by
  intro chunks
  induction chunks with
  | nil =>
    intro st hinv
    have hfeed : feed jp st [] = (st, []) := by
      rcases hinv with hterm | hnone
      · simp [feed, hterm]
      · by_cases hterm : st.core.terminal
        · simp [feed, hterm]
        · have hterm' : st.core.terminal = false := by simpa using hterm
          simp [feed, hterm', processBuffer_none jp st.core hnone]
    refine ⟨?_, ?_, [], ?_, ?_⟩ <;>
      simp [feedChunks, List.flatten, hfeed]
  | cons c cs ih =>
    intro st hinv
    obtain ⟨hcore, htr, r, hbuf, hr⟩ := feed_append jp st c cs.flatten
    have hinv1 : (feed jp st c).1.core.terminal = true ∨
        splitline (feed jp st c).1.buffer = none := by
      by_cases hterm : st.core.terminal
      · left
        simpa [feed, hterm] using hterm
      · have hterm' : st.core.terminal = false := by simpa using hterm
        by_cases ht1 : (feed jp st c).1.core.terminal
        · exact Or.inl ht1
        · right
          have ht1' : (processBuffer jp (st.buffer ++ c) st.core).2.1.terminal = false := by
            simpa [feed, hterm'] using ht1
          have := processBuffer_drained jp (st.buffer ++ c).length (st.buffer ++ c)
            st.core le_rfl ht1'
          simpa [feed, hterm'] using this
    obtain ⟨ihcore, ihtr, r', ihbuf, ihr⟩ := ih (feed jp st c).1 hinv1
    refine ⟨?_, ?_, r' ++ r, ?_, ?_⟩
    · show (feedChunks jp (feed jp st c).1 cs).1.core = _
      rw [ihcore]
      rw [show (c :: cs).flatten = c ++ cs.flatten from rfl]
      exact hcore.symm
    · show (feed jp st c).2 ++ (feedChunks jp (feed jp st c).1 cs).2 = _
      rw [ihtr]
      rw [show (c :: cs).flatten = c ++ cs.flatten from rfl]
      exact htr.symm
    · rw [show (c :: cs).flatten = c ++ cs.flatten from rfl] at *
      rw [hbuf, ihbuf]
      show _ = (feedChunks jp (feed jp st c).1 cs).1.buffer ++ (r' ++ r)
      rw [List.append_assoc]
    · intro hnt
      have hnt1 : (feedChunks jp (feed jp st c).1 cs).1.core.terminal = false := hnt
      have hr' : r' = [] := ihr hnt1
      have hnt2 : (feed jp (feed jp st c).1 cs.flatten).1.core.terminal = false := by
        rw [← ihcore]
        exact hnt1
      have hrnil : r = [] := hr hnt2
      rw [hr', hrnil]
      rfl

theorem splitline_of_line {l : List Char} (r : List Char) (h : '\n' ∉ l) :
    splitline (l ++ '\n' :: r) = some (l, r) := by
  induction l with
  | nil => simp [splitline]
  | cons c rest ih =>
    have hc : c ≠ '\n' := by
      intro heq
      exact h (by simp [heq])
    have hrest : '\n' ∉ rest := by
      intro hmem
      exact h (by simp [hmem])
    rw [List.cons_append, splitline, if_neg hc, ih hrest]

theorem stripCR_of_no_cr {l : List Char} (h : l.getLast? ≠ some '\r') :
    stripCR l = l := by
  unfold stripCR
  rw [if_neg h]

theorem dataLine_getLast {s : List Char} (h : s.getLast? ≠ some '\r') :
    ("data: ".data ++ s).getLast? ≠ some '\r' := by
  rw [List.getLast?_append]
  cases hs : s.getLast? with
  | none => decide
  | some c =>
    intro hcon
    apply h
    rw [hs]
    exact hcon

theorem colonIdx_dataLine (s : List Char) :
    colonIdx ('d' :: 'a' :: 't' :: 'a' :: ':' :: ' ' :: s) = some 4 := by
  simp [colonIdx]

theorem dropWhile_space_of_head {s : List Char} (h : s.head? ≠ some ' ') :
    List.dropWhile (fun c => c = ' ') s = s := by
  cases s with
  | nil => rfl
  | cons c rest =>
    have hc : c ≠ ' ' := by
      intro hcon
      exact h (by simp [hcon])
    simp [List.dropWhile, hc]

theorem feed_data_line (jp : List Char → Option Json) (core : Core) (s : List Char)
    (hterm : core.terminal = false) (hgood : goodPayload s) :
    feed jp ⟨[], core⟩ ("data: ".data ++ s ++ ['\n']) =
      (⟨[], (parseAndDispatchContent jp core s).1⟩,
       (parseAndDispatchContent jp core s).2) := by
  obtain ⟨hnl, hhead, hlast⟩ := hgood
  have hnl2 : '\n' ∉ "data: ".data ++ s := by
    intro hmem
    rcases List.mem_append.mp hmem with hm | hm
    · simp at hm
    · exact hnl hm
  have hsplit : splitline (("data: ".data ++ s) ++ '\n' :: []) =
      some ("data: ".data ++ s, []) := splitline_of_line [] hnl2
  have hline : processLine jp core (stripCR ("data: ".data ++ s)) =
      parseAndDispatchContent jp core s := by
    rw [stripCR_of_no_cr (dataLine_getLast hlast)]
    have hspace : List.dropWhile (fun c => c = ' ') (' ' :: s) = s := by
      have : List.dropWhile (fun c => c = ' ') (' ' :: s) =
          List.dropWhile (fun c => c = ' ') s := by
        simp [List.dropWhile]
      rw [this, dropWhile_space_of_head hhead]
    have hs2 : List.dropWhile (fun c => c = ' ') s = s := dropWhile_space_of_head hhead
    show processLine jp core ('d' :: 'a' :: 't' :: 'a' :: ':' :: ' ' :: s) = _
    simp [processLine, colonIdx_dataLine, hspace, hs2]
  unfold feed
  rw [if_neg (by simp [hterm])]
  have hbuf : ([] : List Char) ++ ("data: ".data ++ s ++ ['\n']) =
      ("data: ".data ++ s) ++ '\n' :: [] := by simp
  rw [hbuf, processBuffer_unfold, hsplit]
  simp only [hline]
  by_cases ht : (parseAndDispatchContent jp core s).1.terminal
  · simp [ht]
  · have ht' : (parseAndDispatchContent jp core s).1.terminal = false := by
      simpa using ht
    simp only [ht', Bool.false_eq_true, if_false]
    rw [@processBuffer_none jp [] (parseAndDispatchContent jp core s).1 rfl]
    simp

theorem flatten_map_singleton (l : List Char) :
    (l.map (fun c => [c])).flatten = l := by
  induction l with
  | nil => rfl
  | cons c rest ih => simp [ih]

theorem core_set_done_false {core : Core} (h : core.done = false) :
    { core with done := false } = core := by
  cases core
  simp_all

/-! ### Claims C6 and C2 -/

/-- C6: once a parser is in a terminal state (done, error or cancelled),
every `feed` is a no-op — no callbacks fire and no state changes — and an
explicit `reset()` restores the freshly-constructed parse state: every
mutable field the constructor initializes (buffer, accumulated content,
current event type, error message/code, the three terminal flags, pending
tool calls, open tool-call index) returns to its initial value, while
configuration set through setters (the format, the content-accumulation
toggle, like the callback registrations and timeout outside this model)
survives, as it does construction. -/
theorem c6_terminal_noop_and_reset :
    (∀ (jparse : List Char → Option Json) (st : PState) (data : List Char),
        st.core.done = true ∨ st.core.cancelled = true ∨ st.core.hasError = true →
        feed jparse st data = (st, []))
    ∧ (∀ st : PState,
        reset st = ⟨[], { initCore st.core.format with
                           accumulateContent := st.core.accumulateContent }⟩) := by
  constructor
  · intro jparse st data h
    have hterm : st.core.terminal = true := by
      unfold Core.terminal
      rcases h with h | h | h <;> simp [h]
    simp [feed, hterm]
  · intro st
    rfl

/-- Witness for C6: after the `[DONE]` sentinel the parser is done, and a
further feed of another data line is a no-op. -/
theorem c6_terminal_noop_witness :
    ((feed jfix (initState .OpenAI) "data: [DONE]\n".data).1.core.done = true) ∧
    feed jfix (feed jfix (initState .OpenAI) "data: [DONE]\n".data).1 "data: x\n".data =
      ((feed jfix (initState .OpenAI) "data: [DONE]\n".data).1, []) :=
  ⟨by decide,
   c6_terminal_noop_and_reset.1 jfix (feed jfix (initState .OpenAI) "data: [DONE]\n".data).1
     "data: x\n".data (Or.inl (by decide))⟩

/-- C2 (amended): a data line expected to carry structured JSON that fails
to JSON-parse is silently skipped: the parser state is unchanged — in
particular `hasError()` stays false and further `feed` calls are processed
normally — and no content, tool-call or error callback fires; only for
Format B (Anthropic) frames whose event type is one of the known
non-content types (message_start, content_block_start, content_block_stop,
ping) does the raw event callback still fire.  (The `[DONE]` sentinel of
Format A and the `message_stop` frame of Format B are completion signals,
not JSON payloads, and are excluded by hypothesis.) -/
theorem c2_parse_failure_skips :
    ∀ (jparse : List Char → Option Json) (core : Core) (data : List Char),
      jparse data = none →
      core.terminal = false →
      core.currentEventType ≠ "message_stop" →
      hasSub "[DONE]".data data = false →
      parseAndDispatchContent jparse core data =
        (core,
         if core.format = .Anthropic ∧
            (core.currentEventType = "message_start" ∨
             core.currentEventType = "content_block_start" ∨
             core.currentEventType = "content_block_stop" ∨
             core.currentEventType = "ping")
         then [CbEvent.event core.currentEventType (String.mk data) false]
         else []) := by
  intro jparse core data hjp hterm hev hnd
  obtain ⟨fmt, acc, cet, em, ec, d, cl, he, ac, ptc, cti⟩ := core
  simp only [Core.terminal, Bool.or_eq_false_iff] at hterm
  obtain ⟨⟨hd, hcl⟩, hhe⟩ := hterm
  subst hd
  simp only [] at hev ⊢
  cases fmt with
  | OpenAI =>
    simp [parseAndDispatchContent, parseOpenAIChunk, hnd, hjp]
  | Gemini =>
    simp [parseAndDispatchContent, parseGeminiChunk, hjp]
  | Anthropic =>
    by_cases hwl :
        cet = "message_start" ∨ cet = "content_block_start" ∨
        cet = "content_block_stop" ∨ cet = "ping"
    · simp +decide [parseAndDispatchContent, parseAnthropicChunk, hev, hjp, hwl]
    · simp +decide [parseAndDispatchContent, parseAnthropicChunk, hev, hjp, hwl]

/-- Witness for C2 (amended): a malformed payload on a Format A parser is
skipped with no state change and no callback. -/
theorem c2_parse_failure_witness :
    parseAndDispatchContent jfix (initCore .OpenAI) "notjson".data =
      (initCore .OpenAI,
       if (initCore .OpenAI).format = .Anthropic ∧
          ((initCore .OpenAI).currentEventType = "message_start" ∨
           (initCore .OpenAI).currentEventType = "content_block_start" ∨
           (initCore .OpenAI).currentEventType = "content_block_stop" ∨
           (initCore .OpenAI).currentEventType = "ping")
       then [CbEvent.event (initCore .OpenAI).currentEventType
              (String.mk "notjson".data) false]
       else []) :=
  c2_parse_failure_skips jfix (initCore .OpenAI) "notjson".data
    (by decide) (by decide) (by decide) (by decide)

/-- C2 (counterexample): a data line that fails to JSON-parse does not put
the parser in a terminal Error state — `hasError()` stays false, no error
callback fires, and the next `feed` is processed normally (here it still
accumulates content). -/
theorem c2_parse_failure_cex :
    ((feed jfix (initState .OpenAI) "data: notjson\n".data).1.core.hasError = false) ∧
    ((feed jfix (initState .OpenAI) "data: notjson\n".data).2 = []) ∧
    ((feed jfix (feed jfix (initState .OpenAI) "data: notjson\n".data).1
        "data: \x7b\"choices\":[\x7b\"delta\":\x7b\"content\":\"Hi\"\x7d\x7d]\x7d\n".data).1.core.accumulatedContent
      = "Hi") :=
  ⟨by decide, by decide, by decide⟩

/-! ### Claim C9 -/

/-- C9 (amended): for Format B, a `content_block_stop` frame arriving while
no tool-use block is open, and `ping` / `message_start` frames, change no
parser state and fire no content, tool-call or error callback; only the
raw-event diagnostic callback observes them. -/
theorem c9_anthropic_noncontent_frames :
    ∀ (jparse : List Char → Option Json) (core : Core) (data : List Char) (j : Json),
      core.terminal = false →
      core.format = .Anthropic →
      core.currentEventType ≠ "message_stop" →
      jparse data = some j →
      ((j.get "type" = Json.str "content_block_stop" ∧
        ¬(0 ≤ core.currentToolCallIndex ∧
          core.currentToolCallIndex < (core.pendingToolCalls.length : Int)))
       ∨ j.get "type" = Json.str "ping" ∨ j.get "type" = Json.str "message_start") →
      parseAndDispatchContent jparse core data =
        (core, [CbEvent.event core.currentEventType (String.mk data) false]) := by
  intro jparse core data j hterm hfmt hev hjp hcase
  obtain ⟨fmt, acc, cet, em, ec, d, cl, he, ac, ptc, cti⟩ := core
  simp only [Core.terminal, Bool.or_eq_false_iff] at hterm
  obtain ⟨⟨hd, hcl⟩, hhe⟩ := hterm
  subst hd
  simp only [] at hfmt hev hcase ⊢
  subst hfmt
  rcases hcase with ⟨htype, hno⟩ | htype | htype
  · simp +decide [parseAndDispatchContent, parseAnthropicChunk, hev, hjp, htype,
      Json.orStr, hno]
  · simp +decide [parseAndDispatchContent, parseAnthropicChunk, hev, hjp, htype,
      Json.orStr]
  · simp +decide [parseAndDispatchContent, parseAnthropicChunk, hev, hjp, htype,
      Json.orStr]

/-- Witness for C9 (amended): a parsed `ping` frame on a fresh Format B
parser leaves the state unchanged and fires only the raw event callback. -/
theorem c9_anthropic_noncontent_witness :
    parseAndDispatchContent jfix { initCore .Anthropic with currentEventType := "ping" }
      "\x7b\"type\":\"ping\"\x7d".data =
      ({ initCore .Anthropic with currentEventType := "ping" },
       [CbEvent.event ({ initCore .Anthropic with currentEventType := "ping" } : Core).currentEventType
         (String.mk "\x7b\"type\":\"ping\"\x7d".data) false]) :=
  c9_anthropic_noncontent_frames jfix
    { initCore .Anthropic with currentEventType := "ping" }
    "\x7b\"type\":\"ping\"\x7d".data (jobj [("type", .str "ping")])
    (by decide) (by decide) (by decide) (by decide) (Or.inr (Or.inl (by decide)))

/-- C9 (counterexample): a `ping` frame does invoke a callback — the raw
event callback fires for it — so "`ping`/`message_start` never invoke any
callback" is false as stated. -/
theorem c9_ping_fires_event_cex :
    (feed jfix (initState .Anthropic)
        "event: ping\ndata: \x7b\"type\":\"ping\"\x7d\n".data).2 =
      [CbEvent.event "ping" "\x7b\"type\":\"ping\"\x7d" false] ∧
    (feed jfix (initState .Anthropic)
        "event: ping\ndata: \x7b\"type\":\"ping\"\x7d\n".data).2 ≠ [] :=
  ⟨by decide, by decide⟩

/-! ### Lemmas: the pending-tool-call bound -/

theorem mergeOneToolCall_skip (pending : List PendingToolCall) (tc : Json)
    (hidx : (tc.get "index").orInt 0 < 0 ∨
      (ESPAI_MAX_TOOLS : Int) ≤ (tc.get "index").orInt 0) :
    mergeOneToolCall pending tc = pending := by
  unfold mergeOneToolCall
  dsimp only
  rw [if_pos hidx]

theorem mergeOneToolCall_length (pending : List PendingToolCall) (tc : Json)
    (h : pending.length ≤ ESPAI_MAX_TOOLS) :
    (mergeOneToolCall pending tc).length ≤ ESPAI_MAX_TOOLS := by
  by_cases hidx : (tc.get "index").orInt 0 < 0 ∨
      (ESPAI_MAX_TOOLS : Int) ≤ (tc.get "index").orInt 0
  · rw [mergeOneToolCall_skip pending tc hidx]
    exact h
  · unfold mergeOneToolCall
    dsimp only
    rw [if_neg hidx]
    push_neg at hidx
    obtain ⟨h1, h2⟩ := hidx
    simp only [List.length_set, List.length_append, List.length_replicate]
    omega

theorem foldl_merge_length (tcs : List Json) :
    ∀ pending : List PendingToolCall, pending.length ≤ ESPAI_MAX_TOOLS →
      (tcs.foldl mergeOneToolCall pending).length ≤ ESPAI_MAX_TOOLS := by
  induction tcs with
  | nil => intro pending h; exact h
  | cons tc rest ih =>
    intro pending h
    exact ih (mergeOneToolCall pending tc) (mergeOneToolCall_length pending tc h)

theorem parseOpenAIChunk_keeps (jp : List Char → Option Json) (core : Core)
    (data : List Char) (h : core.pendingToolCalls.length ≤ ESPAI_MAX_TOOLS) :
    (parseOpenAIChunk jp core data).core.pendingToolCalls.length ≤ ESPAI_MAX_TOOLS ∧
    (parseOpenAIChunk jp core data).core.format = core.format ∧
    (parseOpenAIChunk jp core data).core.hasError = core.hasError := by
  unfold parseOpenAIChunk
  by_cases h1 : hasSub "[DONE]".data data = true
  · rw [if_pos h1]
    exact ⟨h, rfl, rfl⟩
  · rw [if_neg h1]
    cases hjp : jp data with
    | none => exact ⟨h, rfl, rfl⟩
    | some doc =>
      dsimp only
      by_cases h2 : (doc.get "choices").isNull = true
      · rw [if_pos h2]
        exact ⟨h, rfl, rfl⟩
      · rw [if_neg h2]
        cases harr : (doc.get "choices").asArr with
        | nil => exact ⟨h, rfl, rfl⟩
        | cons fc rest =>
          dsimp only
          by_cases h3 : (fc.get "delta").isNull = true
          · rw [if_pos h3]
            exact ⟨h, rfl, rfl⟩
          · rw [if_neg h3]
            by_cases h4 : ((fc.get "delta").get "tool_calls").isNull = true
            · rw [if_pos h4]
              exact ⟨h, rfl, rfl⟩
            · rw [if_neg h4]
              exact ⟨foldl_merge_length _ _ h, rfl, rfl⟩

theorem appendArgsAt_length (pending : List PendingToolCall) (i : Nat) (s : String) :
    (appendArgsAt pending i s).length = pending.length := by
  unfold appendArgsAt
  simp

theorem parseAnthropicChunk_keeps (jp : List Char → Option Json) (core : Core)
    (data : List Char) (h : core.pendingToolCalls.length ≤ ESPAI_MAX_TOOLS) :
    (parseAnthropicChunk jp core data).core.pendingToolCalls.length ≤ ESPAI_MAX_TOOLS ∧
    (parseAnthropicChunk jp core data).core.format = core.format ∧
    (parseAnthropicChunk jp core data).core.hasError = core.hasError := by
  unfold parseAnthropicChunk
  by_cases h1 : core.currentEventType = "message_stop"
  · rw [if_pos h1]
    exact ⟨h, rfl, rfl⟩
  · rw [if_neg h1]
    cases hjp : jp data with
    | none =>
      split_ifs <;> exact ⟨h, rfl, rfl⟩
    | some doc =>
      dsimp only
      by_cases h2 : (doc.get "type").orStr "" = "message_stop"
      · rw [if_pos h2]
        exact ⟨h, rfl, rfl⟩
      · rw [if_neg h2]
        by_cases h3 : (doc.get "type").orStr "" = "content_block_start"
        · rw [if_pos h3]
          by_cases h4 : ((doc.get "content_block").get "type").orStr "" = "tool_use"
          · rw [if_pos h4]
            by_cases h5 : ESPAI_MAX_TOOLS ≤ core.pendingToolCalls.length
            · rw [if_pos h5]
              exact ⟨h, rfl, rfl⟩
            · rw [if_neg h5]
              refine ⟨?_, rfl, rfl⟩
              simp only [List.length_append, List.length_cons, List.length_nil]
              omega
          · rw [if_neg h4]
            exact ⟨h, rfl, rfl⟩
        · rw [if_neg h3]
          by_cases h8 : (doc.get "type").orStr "" = "content_block_delta"
          · have h6 : ¬((doc.get "type").orStr "" = "content_block_stop") := by
              rw [h8]
              decide
            rw [if_pos h8]
            by_cases h9 : ((doc.get "delta").get "type").orStr "" = "text_delta"
            · rw [if_pos h9, if_neg h6]
              exact ⟨h, rfl, rfl⟩
            · rw [if_neg h9]
              by_cases h10 : ((doc.get "delta").get "type").orStr "" = "input_json_delta"
              · rw [if_pos h10]
                by_cases h11 : 0 ≤ core.currentToolCallIndex ∧
                    core.currentToolCallIndex < (core.pendingToolCalls.length : Int)
                · rw [if_pos h11, if_neg h6]
                  refine ⟨?_, rfl, rfl⟩
                  simp [appendArgsAt_length]
                  simpa [appendArgsAt_length] using h
                · rw [if_neg h11, if_neg h6]
                  exact ⟨h, rfl, rfl⟩
              · rw [if_neg h10, if_neg h6]
                exact ⟨h, rfl, rfl⟩
          · rw [if_neg h8]
            by_cases h6 : (doc.get "type").orStr "" = "content_block_stop"
            · rw [if_pos h6]
              by_cases h7 : 0 ≤ core.currentToolCallIndex ∧
                  core.currentToolCallIndex < (core.pendingToolCalls.length : Int)
              · rw [if_pos h7]
                exact ⟨h, rfl, rfl⟩
              · rw [if_neg h7]
                exact ⟨h, rfl, rfl⟩
            · rw [if_neg h6]
              exact ⟨h, rfl, rfl⟩

theorem parseAndDispatchContent_keeps (jp : List Char → Option Json) (core : Core)
    (data : List Char) (hfmt : core.format ≠ .Gemini)
    (h : core.pendingToolCalls.length ≤ ESPAI_MAX_TOOLS) :
    (parseAndDispatchContent jp core data).1.pendingToolCalls.length ≤ ESPAI_MAX_TOOLS ∧
    (parseAndDispatchContent jp core data).1.format = core.format := by
  unfold parseAndDispatchContent
  cases hfm : core.format with
  | Gemini => exact absurd hfm hfmt
  | OpenAI =>
    obtain ⟨hb, hf, _⟩ := parseOpenAIChunk_keeps jp core data h
    dsimp only
    split_ifs <;> simp_all
  | Anthropic =>
    obtain ⟨hb, hf, _⟩ := parseAnthropicChunk_keeps jp core data h
    dsimp only
    split_ifs <;> simp_all

theorem processLine_keeps (jp : List Char → Option Json) (core : Core) (line : List Char)
    (hfmt : core.format ≠ .Gemini)
    (h : core.pendingToolCalls.length ≤ ESPAI_MAX_TOOLS) :
    (processLine jp core line).1.pendingToolCalls.length ≤ ESPAI_MAX_TOOLS ∧
    (processLine jp core line).1.format = core.format := by
  unfold processLine
  by_cases hempty : line.isEmpty = true
  · rw [if_pos hempty]
    exact ⟨h, rfl⟩
  · rw [if_neg hempty]
    cases hci : colonIdx line with
    | none => exact ⟨h, rfl⟩
    | some colonPos =>
      dsimp only
      by_cases h0 : colonPos = 0
      · rw [if_pos h0]
        exact ⟨h, rfl⟩
      · rw [if_neg h0]
        by_cases hev : line.take colonPos = "event".data
        · rw [if_pos hev]
          exact ⟨h, rfl⟩
        · rw [if_neg hev]
          by_cases hdt : line.take colonPos = "data".data
          · rw [if_pos hdt]
            exact parseAndDispatchContent_keeps jp core _ hfmt h
          · rw [if_neg hdt]
            exact ⟨h, rfl⟩

theorem processBufferFuel_keeps (jp : List Char → Option Json) :
    ∀ (f : Nat) (buf : List Char) (core : Core), core.format ≠ .Gemini →
      core.pendingToolCalls.length ≤ ESPAI_MAX_TOOLS →
      (processBufferFuel jp f buf core).2.1.pendingToolCalls.length ≤ ESPAI_MAX_TOOLS ∧
      (processBufferFuel jp f buf core).2.1.format = core.format := by
  intro f
  induction f with
  | zero => intro buf core _ h; exact ⟨h, rfl⟩
  | succ f ihf =>
    intro buf core hfmt h
    simp only [processBufferFuel]
    cases hsp : splitline buf with
    | none => exact ⟨h, rfl⟩
    | some p =>
      obtain ⟨line, rest⟩ := p
      obtain ⟨hb, hf⟩ := processLine_keeps jp core (stripCR line) hfmt h
      by_cases ht : (processLine jp core (stripCR line)).1.terminal
      · simp only [ht, if_true]
        exact ⟨hb, hf⟩
      · simp only [ht, Bool.false_eq_true, if_false]
        have hfmt2 : (processLine jp core (stripCR line)).1.format ≠ .Gemini := by
          rw [hf]
          exact hfmt
        obtain ⟨hb2, hf2⟩ := ihf rest (processLine jp core (stripCR line)).1 hfmt2 hb
        exact ⟨hb2, hf2.trans hf⟩

theorem parseOpenAIChunk_hasError (jp : List Char → Option Json) (core : Core)
    (data : List Char) :
    (parseOpenAIChunk jp core data).core.hasError = core.hasError := by
  unfold parseOpenAIChunk
  by_cases h1 : hasSub "[DONE]".data data = true
  · rw [if_pos h1]
  · rw [if_neg h1]
    cases hjp : jp data with
    | none => rfl
    | some doc =>
      dsimp only
      by_cases h2 : (doc.get "choices").isNull = true
      · rw [if_pos h2]
      · rw [if_neg h2]
        cases harr : (doc.get "choices").asArr with
        | nil => rfl
        | cons firstChoice rest =>
          dsimp only
          by_cases h3 : (firstChoice.get "delta").isNull = true
          · rw [if_pos h3]
          · rw [if_neg h3]

theorem anthropic_full_tooluse_noop (jp : List Char → Option Json) (core : Core)
    (data : List Char) (j : Json)
    (hev : core.currentEventType ≠ "message_stop")
    (hjp : jp data = some j)
    (htype : j.get "type" = Json.str "content_block_start")
    (hblock : (j.get "content_block").get "type" = Json.str "tool_use")
    (hfull : core.pendingToolCalls.length = ESPAI_MAX_TOOLS) :
    parseAnthropicChunk jp core data =
      ⟨true, "", false, core, []⟩ := by
  have ht : (j.get "type").orStr "" = "content_block_start" := by
    rw [htype]
    rfl
  have hbt : ((j.get "content_block").get "type").orStr "" = "tool_use" := by
    rw [hblock]
    rfl
  unfold parseAnthropicChunk
  rw [if_neg hev, hjp]
  dsimp only
  rw [ht]
  rw [if_neg (by decide), if_pos rfl]
  rw [hbt]
  rw [if_pos rfl, if_pos (le_of_eq hfull.symm)]

/-! ### Claim C10 -/

/-- C10 (amended): in Formats A and B the parser never holds more than
`ESPAI_MAX_TOOLS` pending tool calls: a whole `feed` preserves the bound
when the format is not Gemini; in Format A a tool-call fragment whose
index is negative or at least `ESPAI_MAX_TOOLS` is skipped without being
stored, and Format A line processing never flips `hasError` (so the skip
is not reported as an error); in Format B a `tool_use`
`content_block_start` arriving with `ESPAI_MAX_TOOLS` pending tool calls
leaves the parser state unchanged.  Format C (Gemini) imposes no such
bound. -/
theorem c10_pending_bound_amended :
    (∀ (jparse : List Char → Option Json) (st : PState) (data : List Char),
        st.core.format ≠ .Gemini →
        st.core.pendingToolCalls.length ≤ ESPAI_MAX_TOOLS →
        (feed jparse st data).1.core.pendingToolCalls.length ≤ ESPAI_MAX_TOOLS)
    ∧ (∀ (pending : List PendingToolCall) (tc : Json),
        (tc.get "index").orInt 0 < 0 ∨ (ESPAI_MAX_TOOLS : Int) ≤ (tc.get "index").orInt 0 →
        mergeOneToolCall pending tc = pending)
    ∧ (∀ (jparse : List Char → Option Json) (core : Core) (data : List Char),
        (parseOpenAIChunk jparse core data).core.hasError = core.hasError)
    ∧ (∀ (jparse : List Char → Option Json) (core : Core) (data : List Char) (j : Json),
        core.currentEventType ≠ "message_stop" →
        jparse data = some j →
        j.get "type" = Json.str "content_block_start" →
        (j.get "content_block").get "type" = Json.str "tool_use" →
        core.pendingToolCalls.length = ESPAI_MAX_TOOLS →
        parseAnthropicChunk jparse core data = ⟨true, "", false, core, []⟩) := by
  refine ⟨?_, mergeOneToolCall_skip, ?_, anthropic_full_tooluse_noop⟩
  · intro jparse st data hfmt h
    unfold feed
    by_cases hterm : st.core.terminal = true
    · simp [hterm, h]
    · simp only [hterm, Bool.false_eq_true, if_false]
      exact (processBufferFuel_keeps jparse _ _ _ hfmt h).1
  · intro jparse core data
    exact parseOpenAIChunk_hasError jparse core data

/-- Witness for C10 (amended): a Format B parser already holding
`ESPAI_MAX_TOOLS` pending tool calls ignores a further `tool_use`
`content_block_start`. -/
theorem c10_pending_bound_witness :
    parseAnthropicChunk jfix
      { initCore .Anthropic with
          pendingToolCalls := List.replicate ESPAI_MAX_TOOLS ⟨"i", "n", "a"⟩ }
      "\x7b\"type\":\"content_block_start\",\"content_block\":\x7b\"type\":\"tool_use\",\"id\":\"t1\",\"name\":\"g\"\x7d\x7d".data =
      ⟨true, "", false,
       { initCore .Anthropic with
           pendingToolCalls := List.replicate ESPAI_MAX_TOOLS ⟨"i", "n", "a"⟩ }, []⟩ :=
  c10_pending_bound_amended.2.2.2 jfix
    { initCore .Anthropic with
        pendingToolCalls := List.replicate ESPAI_MAX_TOOLS ⟨"i", "n", "a"⟩ }
    "\x7b\"type\":\"content_block_start\",\"content_block\":\x7b\"type\":\"tool_use\",\"id\":\"t1\",\"name\":\"g\"\x7d\x7d".data
    (jobj [("type", .str "content_block_start"),
           ("content_block", jobj [("type", .str "tool_use"),
                                   ("id", .str "t1"), ("name", .str "g")])])
    (by decide) (by decide) (by decide) (by decide) (by decide)

/-- C10 (counterexample): the parser as a whole is not bounded by
`ESPAI_MAX_TOOLS`: one Gemini data line carrying eleven functionCall parts
leaves eleven pending tool calls. -/
theorem c10_pending_bound_cex :
    (feed jfix (initState .Gemini)
        ("data: \x7b\"candidates\":[\x7b\"content\":\x7b\"parts\":[\x7b\"functionCall\":\x7b\"name\":\"f\",\"args\":\x7b\x7d\x7d\x7d,\x7b\"functionCall\":\x7b\"name\":\"f\",\"args\":\x7b\x7d\x7d\x7d,\x7b\"functionCall\":\x7b\"name\":\"f\",\"args\":\x7b\x7d\x7d\x7d,\x7b\"functionCall\":\x7b\"name\":\"f\",\"args\":\x7b\x7d\x7d\x7d,\x7b\"functionCall\":\x7b\"name\":\"f\",\"args\":\x7b\x7d\x7d\x7d,\x7b\"functionCall\":\x7b\"name\":\"f\",\"args\":\x7b\x7d\x7d\x7d,\x7b\"functionCall\":\x7b\"name\":\"f\",\"args\":\x7b\x7d\x7d\x7d,\x7b\"functionCall\":\x7b\"name\":\"f\",\"args\":\x7b\x7d\x7d\x7d,\x7b\"functionCall\":\x7b\"name\":\"f\",\"args\":\x7b\x7d\x7d\x7d,\x7b\"functionCall\":\x7b\"name\":\"f\",\"args\":\x7b\x7d\x7d\x7d,\x7b\"functionCall\":\x7b\"name\":\"f\",\"args\":\x7b\x7d\x7d\x7d]\x7d\x7d]\x7d\n".data)).1.core.pendingToolCalls.length
      = 11 ∧
    ESPAI_MAX_TOOLS < 11 :=
  ⟨by decide, by decide⟩

/-! ### Lemmas: Format A tool-call fragment assembly -/

theorem JL_toList_ofList : ∀ l : List Json, (JL.ofList l).toList = l := by
  intro l
  induction l with
  | nil => rfl
  | cons x xs ih => simp [JL.ofList, JL.toList, ih]

theorem string_empty_append (s : String) : "" ++ s = s := by
  cases s
  rfl

theorem getD_replicate_default (n i : Nat) (h : i < n) :
    (List.replicate n (default : PendingToolCall)).getD i default = default := by
  rw [List.getD_eq_getElem?_getD, List.getElem?_replicate]
  simp [h]

theorem getD_set_self (l : List PendingToolCall) (i : Nat) (x : PendingToolCall)
    (h : i < l.length) :
    (l.set i x).getD i default = x := by
  rw [List.getD_eq_getElem?_getD, List.getElem?_set_self]
  · simp
  · exact h

theorem mergeOneToolCall_head (k : Nat) (hk : k < ESPAI_MAX_TOOLS) (id name a0 : String) :
    mergeOneToolCall [] (oaHeadFrag k id name a0) =
      (List.replicate (k + 1) default).set k ⟨id, name, a0⟩ := by
  have h1 : (oaHeadFrag k id name a0).get "index" = .num k := by
    simp +decide [oaHeadFrag, jobj, JM.ofList, Json.get, jfind]
  have h2 : (oaHeadFrag k id name a0).get "id" = .str id := by
    simp +decide [oaHeadFrag, jobj, JM.ofList, Json.get, jfind]
  have h3 : (oaHeadFrag k id name a0).get "function" =
      jobj [("name", .str name), ("arguments", .str a0)] := by
    simp +decide [oaHeadFrag, jobj, JM.ofList, Json.get, jfind]
  have h4 : (jobj [("name", Json.str name), ("arguments", Json.str a0)]).get "name" =
      .str name := by
    simp +decide [jobj, JM.ofList, Json.get, jfind]
  have h5 : (jobj [("name", Json.str name), ("arguments", Json.str a0)]).get "arguments" =
      .str a0 := by
    simp +decide [jobj, JM.ofList, Json.get, jfind]
  have hcond : ¬(((k : Nat) : Int) < 0 ∨ (ESPAI_MAX_TOOLS : Int) ≤ ((k : Nat) : Int)) := by
    push_cast
    omega
  unfold mergeOneToolCall
  rw [h1]
  dsimp only
  rw [if_neg (by simpa [Json.orInt] using hcond)]
  rw [h2, h3, h4, h5]
  simp only [Json.orInt, Json.isNull, Json.asString, Int.toNat_natCast, List.nil_append,
    List.length_nil, Nat.sub_zero, Bool.false_eq_true, if_false]
  rw [getD_replicate_default (k + 1) k (by omega)]
  simp [jobj, default, string_empty_append]

theorem mergeOneToolCall_tail (k : Nat) (hk : k < ESPAI_MAX_TOOLS)
    (id name a arg : String) (pending : List PendingToolCall)
    (hlen : pending.length = k + 1)
    (hget : pending.getD k default = ⟨id, name, a⟩) :
    mergeOneToolCall pending (oaTailFrag k arg) = pending.set k ⟨id, name, a ++ arg⟩ := by
  have h1 : (oaTailFrag k arg).get "index" = .num k := by
    simp +decide [oaTailFrag, jobj, JM.ofList, Json.get, jfind]
  have h2 : (oaTailFrag k arg).get "id" = Json.null := by
    simp +decide [oaTailFrag, jobj, JM.ofList, Json.get, jfind]
  have h3 : (oaTailFrag k arg).get "function" = jobj [("arguments", .str arg)] := by
    simp +decide [oaTailFrag, jobj, JM.ofList, Json.get, jfind]
  have h4 : (jobj [("arguments", Json.str arg)]).get "name" = Json.null := by
    simp +decide [jobj, JM.ofList, Json.get, jfind]
  have h5 : (jobj [("arguments", Json.str arg)]).get "arguments" = .str arg := by
    simp +decide [jobj, JM.ofList, Json.get, jfind]
  have hcond : ¬(((k : Nat) : Int) < 0 ∨ (ESPAI_MAX_TOOLS : Int) ≤ ((k : Nat) : Int)) := by
    push_cast
    omega
  have hpad : pending ++ List.replicate (k + 1 - pending.length) default = pending := by
    rw [hlen]
    simp
  unfold mergeOneToolCall
  rw [h1]
  dsimp only
  rw [if_neg (by simpa [Json.orInt] using hcond)]
  rw [h2, h3, h4, h5]
  simp only [Json.orInt, Json.isNull, Json.asString, Int.toNat_natCast, Bool.false_eq_true,
    if_false, if_true]
  rw [hpad, hget]
  simp [jobj]

theorem parseOpenAIChunk_toolcalls (jp : List Char → Option Json) (core : Core)
    (data : List Char) (tcs : List Json)
    (hnd : hasSub "[DONE]".data data = false)
    (hjp : jp data = some (oaToolCallsJson tcs)) :
    parseOpenAIChunk jp core data =
      ⟨true, "", false,
       { core with pendingToolCalls := tcs.foldl mergeOneToolCall core.pendingToolCalls },
       []⟩ := by
  have h1 : (oaToolCallsJson tcs).get "choices" =
      jarr [jobj [("delta", jobj [("tool_calls", jarr tcs)])]] := by
    simp +decide [oaToolCallsJson, jobj, jarr, Json.get, jfind, JM.ofList]
  have h2 : (jarr [jobj [("delta", jobj [("tool_calls", jarr tcs)])]]).asArr =
      [jobj [("delta", jobj [("tool_calls", jarr tcs)])]] := by
    simp [jarr, JL.ofList, Json.asArr, JL.toList]
  have h3 : (jobj [("delta", jobj [("tool_calls", jarr tcs)])]).get "delta" =
      jobj [("tool_calls", jarr tcs)] := by
    simp +decide [jobj, JM.ofList, Json.get, jfind]
  have h4 : (jobj [("tool_calls", jarr tcs)]).get "content" = Json.null := by
    simp +decide [jobj, JM.ofList, Json.get, jfind]
  have h5 : (jobj [("tool_calls", jarr tcs)]).get "tool_calls" = jarr tcs := by
    simp +decide [jobj, JM.ofList, Json.get, jfind]
  unfold parseOpenAIChunk
  simp only [hnd, Bool.false_eq_true, if_false]
  rw [hjp]
  dsimp only
  rw [h1, h2]
  dsimp only
  rw [h3, h4, h5]
  simp [jobj, jarr, Json.isNull, Json.asArr, JL_toList_ofList]

theorem dispatch_openai_toolcalls (jp : List Char → Option Json) (core : Core)
    (data : List Char) (tcs : List Json)
    (hfmt : core.format = .OpenAI) (hdone : core.done = false)
    (hnd : hasSub "[DONE]".data data = false)
    (hjp : jp data = some (oaToolCallsJson tcs)) :
    parseAndDispatchContent jp core data =
      ({ core with pendingToolCalls := tcs.foldl mergeOneToolCall core.pendingToolCalls },
       [CbEvent.event core.currentEventType (String.mk data) false]) := by
  unfold parseAndDispatchContent
  rw [hfmt]
  dsimp only
  rw [parseOpenAIChunk_toolcalls jp core data tcs hnd hjp]
  dsimp only
  rw [if_neg (by decide)]
  rw [if_neg (by decide), if_neg (by decide)]
  rw [core_set_done_false (show
      ({ core with pendingToolCalls :=
          tcs.foldl mergeOneToolCall core.pendingToolCalls } : Core).done = false
    from hdone)]
  simp [hfmt]

theorem dispatch_openai_done (jp : List Char → Option Json) (core : Core)
    (data : List Char)
    (hfmt : core.format = .OpenAI) (hnd : hasSub "[DONE]".data data = true) :
    parseAndDispatchContent jp core data =
      ({ core with done := true },
       finalizeToolCalls core.pendingToolCalls ++
         [CbEvent.event core.currentEventType (String.mk data) true,
          CbEvent.content "" true]) := by
  unfold parseAndDispatchContent parseOpenAIChunk
  rw [hfmt]
  dsimp only
  rw [if_pos hnd]
  dsimp only
  rw [if_neg (by decide)]
  rw [if_neg (by decide), if_pos rfl]
  simp [hfmt]

theorem feed_toolcalls_line (jp : List Char → Option Json) (core : Core)
    (d : List Char) (tcs : List Json)
    (hfmt : core.format = .OpenAI) (hterm : core.terminal = false)
    (hdone : core.done = false) (hg : goodPayload d)
    (hnd : hasSub "[DONE]".data d = false)
    (hjp : jp d = some (oaToolCallsJson tcs)) :
    feed jp ⟨[], core⟩ ("data: ".data ++ d ++ ['\n']) =
      (⟨[], { core with pendingToolCalls :=
                tcs.foldl mergeOneToolCall core.pendingToolCalls }⟩,
       [CbEvent.event core.currentEventType (String.mk d) false]) := by
  rw [feed_data_line jp core d hterm hg,
      dispatch_openai_toolcalls jp core d tcs hfmt hdone hnd hjp]

theorem feed_done_line (jp : List Char → Option Json) (core : Core)
    (hfmt : core.format = .OpenAI) (hterm : core.terminal = false) :
    feed jp ⟨[], core⟩ ("data: [DONE]".data ++ ['\n']) =
      (⟨[], { core with done := true }⟩,
       finalizeToolCalls core.pendingToolCalls ++
         [CbEvent.event core.currentEventType "[DONE]" true,
          CbEvent.content "" true]) := by
  have hshape : ("data: [DONE]".data : List Char) = "data: ".data ++ "[DONE]".data := by
    decide
  rw [hshape, feed_data_line jp core "[DONE]".data hterm (by decide),
      dispatch_openai_done jp core "[DONE]".data hfmt (by decide)]

theorem c4_tails_aux (jp : List Char → Option Json) (k : Nat) (hk : k < ESPAI_MAX_TOOLS)
    (id name : String) (ds : List (List Char)) (args : List String)
    (hds : List.Forall₂ (fun d a => jp d = some (oaTailJson k a) ∧
        hasSub "[DONE]".data d = false ∧ goodPayload d) ds args) :
    ∀ a : String,
      feedChunks jp ⟨[], { initCore .OpenAI with pendingToolCalls := (List.replicate (k + 1) default).set k ⟨id, name, a⟩ }⟩ (ds.map (fun d => "data: ".data ++ d ++ ['\n'])) =
      (⟨[], { initCore .OpenAI with pendingToolCalls := (List.replicate (k + 1) default).set k ⟨id, name, args.foldl (fun x y => x ++ y) a⟩ }⟩,
       ds.map (fun d => CbEvent.event "" (String.mk d) false)) := by
  induction hds with
  | nil =>
    intro a
    simp [feedChunks]
  | @cons d arg ds2 args2 hpair hrest ih =>
    intro a
    obtain ⟨hjp, hnd, hg⟩ := hpair
    simp only [List.map_cons, feedChunks]
    rw [feed_toolcalls_line jp { initCore .OpenAI with pendingToolCalls := (List.replicate (k + 1) default).set k ⟨id, name, a⟩ } d [oaTailFrag k arg] rfl rfl rfl hg hnd hjp]
    have hmerge : List.foldl mergeOneToolCall (({ initCore .OpenAI with pendingToolCalls := (List.replicate (k + 1) default).set k ⟨id, name, a⟩ } : Core).pendingToolCalls) [oaTailFrag k arg] =
        (List.replicate (k + 1) default).set k ⟨id, name, a ++ arg⟩ := by
      show mergeOneToolCall ((List.replicate (k + 1) default).set k ⟨id, name, a⟩)
          (oaTailFrag k arg) = _
      rw [mergeOneToolCall_tail k hk id name a arg _
          (by simp)
          (getD_set_self _ k _ (by simp)),
        List.set_set]
    rw [hmerge, ih (a ++ arg)]
    simp [initCore]

/-- C4: starting from a fresh Format A parser, a tool-call opening fragment
for index `k` (carrying id, name and a first arguments fragment) followed
by any number of continuation fragments for the same index, each arriving
on its own `data:` line, assembles one pending tool call at position `k`
whose id and name are those of the opening fragment and whose arguments are
the fragments concatenated in arrival order; while those lines are
processed the only callbacks fired are the raw per-line event callbacks —
no tool-call callback fires — and the `data: [DONE]` line then fires the
tool-call callback for every assembled pending tool call, followed by the
final done signals. -/
theorem c4_toolcall_fragment_assembly (jp : List Char → Option Json) (k : Nat)
    (id name a0 : String) (d0 : List Char) (ds : List (List Char)) (args : List String)
    (hk : k < ESPAI_MAX_TOOLS)
    (h0 : jp d0 = some (oaHeadJson k id name a0))
    (hnd0 : hasSub "[DONE]".data d0 = false)
    (hg0 : goodPayload d0)
    (hds : List.Forall₂ (fun d a => jp d = some (oaTailJson k a) ∧
        hasSub "[DONE]".data d = false ∧ goodPayload d) ds args) :
    (feedChunks jp (initState .OpenAI)
        ((d0 :: ds).map (fun d => "data: ".data ++ d ++ ['\n']))).1.core.pendingToolCalls =
      (List.replicate (k + 1) default).set k
        ⟨id, name, args.foldl (fun x y => x ++ y) a0⟩ ∧
    (feedChunks jp (initState .OpenAI)
        ((d0 :: ds).map (fun d => "data: ".data ++ d ++ ['\n']))).2 =
      (d0 :: ds).map (fun d => CbEvent.event "" (String.mk d) false) ∧
    (feed jp (feedChunks jp (initState .OpenAI)
        ((d0 :: ds).map (fun d => "data: ".data ++ d ++ ['\n']))).1
        ("data: [DONE]".data ++ ['\n'])).2 =
      finalizeToolCalls ((List.replicate (k + 1) default).set k
          ⟨id, name, args.foldl (fun x y => x ++ y) a0⟩) ++
        [CbEvent.event "" "[DONE]" true, CbEvent.content "" true] := by
  have hrun : feedChunks jp (initState .OpenAI)
      ((d0 :: ds).map (fun d => "data: ".data ++ d ++ ['\n'])) =
      (⟨[], { initCore .OpenAI with pendingToolCalls := (List.replicate (k + 1) default).set k ⟨id, name, args.foldl (fun x y => x ++ y) a0⟩ }⟩,
       (d0 :: ds).map (fun d => CbEvent.event "" (String.mk d) false)) := by
    simp only [List.map_cons, feedChunks, initState]
    rw [feed_toolcalls_line jp (initCore .OpenAI) d0 [oaHeadFrag k id name a0] rfl rfl rfl hg0 hnd0 h0]
    have hmerge : List.foldl mergeOneToolCall
        ((initCore .OpenAI).pendingToolCalls) [oaHeadFrag k id name a0] =
        (List.replicate (k + 1) default).set k ⟨id, name, a0⟩ := by
      show mergeOneToolCall (initCore .OpenAI).pendingToolCalls (oaHeadFrag k id name a0) = _
      show mergeOneToolCall [] (oaHeadFrag k id name a0) = _
      exact mergeOneToolCall_head k hk id name a0
    rw [hmerge, c4_tails_aux jp k hk id name ds args hds a0]
    simp [initCore]
  rw [hrun]
  refine ⟨rfl, rfl, ?_⟩
  dsimp only
  rw [feed_done_line jp { initCore .OpenAI with pendingToolCalls := (List.replicate (k + 1) default).set k ⟨id, name, args.foldl (fun x y => x ++ y) a0⟩ } rfl rfl]
  simp [initCore]

/-- Witness for C4: a fresh Format A parser fed an opening fragment for
index 0 (id `call_1`, name `f`, first arguments piece) and one
continuation fragment assembles the single pending tool call with the
concatenated argument string, fires only raw event callbacks while doing
so, and fires the tool-call callback on the `[DONE]` line. -/
theorem c4_toolcall_fragment_assembly_witness :
    (feedChunks jfix (initState .OpenAI)
        (("\x7b\"choices\":[\x7b\"delta\":\x7b\"tool_calls\":[\x7b\"index\":0,\"id\":\"call_1\",\"function\":\x7b\"name\":\"f\",\"arguments\":\"\x7b\\\"a\\\":\"\x7d\x7d]\x7d\x7d]\x7d".data ::
          ["\x7b\"choices\":[\x7b\"delta\":\x7b\"tool_calls\":[\x7b\"index\":0,\"function\":\x7b\"arguments\":\"1\x7d\"\x7d\x7d]\x7d\x7d]\x7d".data]).map
          (fun d => "data: ".data ++ d ++ ['\n']))).1.core.pendingToolCalls =
      (List.replicate (0 + 1) default).set 0
        ⟨"call_1", "f", ["1\x7d"].foldl (fun x y => x ++ y) "\x7b\"a\":"⟩ ∧
    (feedChunks jfix (initState .OpenAI)
        (("\x7b\"choices\":[\x7b\"delta\":\x7b\"tool_calls\":[\x7b\"index\":0,\"id\":\"call_1\",\"function\":\x7b\"name\":\"f\",\"arguments\":\"\x7b\\\"a\\\":\"\x7d\x7d]\x7d\x7d]\x7d".data ::
          ["\x7b\"choices\":[\x7b\"delta\":\x7b\"tool_calls\":[\x7b\"index\":0,\"function\":\x7b\"arguments\":\"1\x7d\"\x7d\x7d]\x7d\x7d]\x7d".data]).map
          (fun d => "data: ".data ++ d ++ ['\n']))).2 =
      ("\x7b\"choices\":[\x7b\"delta\":\x7b\"tool_calls\":[\x7b\"index\":0,\"id\":\"call_1\",\"function\":\x7b\"name\":\"f\",\"arguments\":\"\x7b\\\"a\\\":\"\x7d\x7d]\x7d\x7d]\x7d".data ::
          ["\x7b\"choices\":[\x7b\"delta\":\x7b\"tool_calls\":[\x7b\"index\":0,\"function\":\x7b\"arguments\":\"1\x7d\"\x7d\x7d]\x7d\x7d]\x7d".data]).map
        (fun d => CbEvent.event "" (String.mk d) false) ∧
    (feed jfix (feedChunks jfix (initState .OpenAI)
        (("\x7b\"choices\":[\x7b\"delta\":\x7b\"tool_calls\":[\x7b\"index\":0,\"id\":\"call_1\",\"function\":\x7b\"name\":\"f\",\"arguments\":\"\x7b\\\"a\\\":\"\x7d\x7d]\x7d\x7d]\x7d".data ::
          ["\x7b\"choices\":[\x7b\"delta\":\x7b\"tool_calls\":[\x7b\"index\":0,\"function\":\x7b\"arguments\":\"1\x7d\"\x7d\x7d]\x7d\x7d]\x7d".data]).map
          (fun d => "data: ".data ++ d ++ ['\n']))).1
        ("data: [DONE]".data ++ ['\n'])).2 =
      finalizeToolCalls ((List.replicate (0 + 1) default).set 0
          ⟨"call_1", "f", ["1\x7d"].foldl (fun x y => x ++ y) "\x7b\"a\":"⟩) ++
        [CbEvent.event "" "[DONE]" true, CbEvent.content "" true] :=
  c4_toolcall_fragment_assembly jfix 0 "call_1" "f" "\x7b\"a\":"
    "\x7b\"choices\":[\x7b\"delta\":\x7b\"tool_calls\":[\x7b\"index\":0,\"id\":\"call_1\",\"function\":\x7b\"name\":\"f\",\"arguments\":\"\x7b\\\"a\\\":\"\x7d\x7d]\x7d\x7d]\x7d".data
    ["\x7b\"choices\":[\x7b\"delta\":\x7b\"tool_calls\":[\x7b\"index\":0,\"function\":\x7b\"arguments\":\"1\x7d\"\x7d\x7d]\x7d\x7d]\x7d".data]
    ["1\x7d"]
    (by decide) (by decide) (by decide) (by decide)
    (List.Forall₂.cons ⟨by decide, by decide, by decide⟩ List.Forall₂.nil)

/-! ### Lemmas: Format C function-call synthesis -/

theorem geminiPart_functionCall (c0 : String) (p0 : List PendingToolCall)
    (name : String) (args : Json) (hname : ¬name = "") :
    geminiPart (c0, p0) (gemPartJson name args) =
      (c0, p0 ++ [⟨"gemini_tc_" ++ toString p0.length, name, serializeJson args⟩]) := by
  have h1 : (gemPartJson name args).get "thought" = Json.null := by
    simp +decide [gemPartJson, jobj, JM.ofList, Json.get, jfind]
  have h2 : (gemPartJson name args).get "text" = Json.null := by
    simp +decide [gemPartJson, jobj, JM.ofList, Json.get, jfind]
  have h3 : (gemPartJson name args).get "functionCall" =
      jobj [("name", .str name), ("args", args)] := by
    simp +decide [gemPartJson, jobj, JM.ofList, Json.get, jfind]
  have h4 : (jobj [("name", Json.str name), ("args", args)]).get "name" = .str name := by
    simp +decide [jobj, JM.ofList, Json.get, jfind]
  have h5 : (jobj [("name", Json.str name), ("args", args)]).get "args" = args := by
    simp +decide [jobj, JM.ofList, Json.get, jfind]
  unfold geminiPart
  dsimp only
  rw [h1, h2, h3]
  rw [h4, h5]
  simp +decide [Json.orBool, Json.isNull, jobj, Json.asString, String.isEmpty_iff, hname]

theorem geminiParts_fold (calls : List (String × Json)) :
    ∀ (c0 : String) (p0 : List PendingToolCall), (∀ p ∈ calls, ¬p.1 = "") →
      (calls.map (fun p => gemPartJson p.1 p.2)).foldl geminiPart (c0, p0) =
      (c0, p0 ++ geminiExpected p0.length calls) := by
  induction calls with
  | nil =>
    intro c0 p0 _
    simp [geminiExpected]
  | cons p rest ih =>
    intro c0 p0 hnames
    simp only [List.map_cons, List.foldl_cons]
    rw [geminiPart_functionCall c0 p0 p.1 p.2 (hnames p (by simp))]
    rw [ih c0 _ (fun q hq => hnames q (by simp [hq]))]
    simp [geminiExpected]

theorem parseGeminiChunk_line (jp : List Char → Option Json) (core : Core)
    (data : List Char) (calls : List (String × Json)) (finish : String)
    (hjp : jp data = some (gemLineJson calls finish))
    (hnames : ∀ p ∈ calls, ¬p.1 = "") :
    parseGeminiChunk jp core data =
      if finish.isEmpty then
        ⟨true, "", false, { core with pendingToolCalls := core.pendingToolCalls ++ geminiExpected core.pendingToolCalls.length calls }, []⟩
      else
        ⟨true, "", true, { core with pendingToolCalls := core.pendingToolCalls ++ geminiExpected core.pendingToolCalls.length calls },
         finalizeToolCalls (core.pendingToolCalls ++ geminiExpected core.pendingToolCalls.length calls)⟩ := by
  by_cases hf : finish.isEmpty = true
  · have hA : (gemLineJson calls finish).get "error" = Json.null := by
      simp +decide [gemLineJson, hf, jobj, jarr, JM.ofList, Json.get, jfind]
    have hB : (gemLineJson calls finish).get "candidates" =
        jarr [jobj [("content", jobj [("parts", jarr (calls.map (fun p => gemPartJson p.1 p.2)))])]] := by
      simp +decide [gemLineJson, hf, jobj, jarr, JM.ofList, Json.get, jfind]
    have hC : (jobj [("content", jobj [("parts", jarr (calls.map (fun p => gemPartJson p.1 p.2)))])]).get "content" =
        jobj [("parts", jarr (calls.map (fun p => gemPartJson p.1 p.2)))] := by
      simp +decide [jobj, jarr, JM.ofList, Json.get, jfind]
    have hD : (jobj [("parts", jarr (calls.map (fun p => gemPartJson p.1 p.2)))]).get "parts" =
        jarr (calls.map (fun p => gemPartJson p.1 p.2)) := by
      simp +decide [jobj, jarr, JM.ofList, Json.get, jfind]
    have hE : (jobj [("content", jobj [("parts", jarr (calls.map (fun p => gemPartJson p.1 p.2)))])]).get "finishReason" =
        Json.null := by
      simp +decide [jobj, jarr, JM.ofList, Json.get, jfind]
    unfold parseGeminiChunk
    rw [hjp]
    dsimp only
    rw [hA, hB]
    rw [show (jarr [jobj [("content", jobj [("parts", jarr (calls.map (fun p => gemPartJson p.1 p.2)))])]]).asArr =
        [jobj [("content", jobj [("parts", jarr (calls.map (fun p => gemPartJson p.1 p.2)))])]] by
      simp [jarr, JL.ofList, Json.asArr, JL.toList]]
    dsimp only
    rw [hC, hD, hE]
    rw [show (jarr (calls.map (fun p => gemPartJson p.1 p.2))).asArr =
        calls.map (fun p => gemPartJson p.1 p.2) by simp [jarr, Json.asArr, JL_toList_ofList]]
    rw [geminiParts_fold calls "" core.pendingToolCalls hnames]
    simp +decide [jobj, jarr, Json.isNull, Json.orStr, Json.orBool, hf]
  · have hA : (gemLineJson calls finish).get "error" = Json.null := by
      simp +decide [gemLineJson, hf, jobj, jarr, JM.ofList, Json.get, jfind]
    have hB : (gemLineJson calls finish).get "candidates" =
        jarr [jobj [("content", jobj [("parts", jarr (calls.map (fun p => gemPartJson p.1 p.2)))]), ("finishReason", Json.str finish)]] := by
      simp +decide [gemLineJson, hf, jobj, jarr, JM.ofList, Json.get, jfind]
    have hC : (jobj [("content", jobj [("parts", jarr (calls.map (fun p => gemPartJson p.1 p.2)))]), ("finishReason", Json.str finish)]).get "content" =
        jobj [("parts", jarr (calls.map (fun p => gemPartJson p.1 p.2)))] := by
      simp +decide [jobj, jarr, JM.ofList, Json.get, jfind]
    have hD : (jobj [("parts", jarr (calls.map (fun p => gemPartJson p.1 p.2)))]).get "parts" =
        jarr (calls.map (fun p => gemPartJson p.1 p.2)) := by
      simp +decide [jobj, jarr, JM.ofList, Json.get, jfind]
    have hE : (jobj [("content", jobj [("parts", jarr (calls.map (fun p => gemPartJson p.1 p.2)))]), ("finishReason", Json.str finish)]).get "finishReason" =
        Json.str finish := by
      simp +decide [jobj, jarr, JM.ofList, Json.get, jfind]
    unfold parseGeminiChunk
    rw [hjp]
    dsimp only
    rw [hA, hB]
    rw [show (jarr [jobj [("content", jobj [("parts", jarr (calls.map (fun p => gemPartJson p.1 p.2)))]), ("finishReason", Json.str finish)]]).asArr =
        [jobj [("content", jobj [("parts", jarr (calls.map (fun p => gemPartJson p.1 p.2)))]), ("finishReason", Json.str finish)]] by
      simp [jarr, JL.ofList, Json.asArr, JL.toList]]
    dsimp only
    rw [hC, hD, hE]
    rw [show (jarr (calls.map (fun p => gemPartJson p.1 p.2))).asArr =
        calls.map (fun p => gemPartJson p.1 p.2) by simp [jarr, Json.asArr, JL_toList_ofList]]
    rw [geminiParts_fold calls "" core.pendingToolCalls hnames]
    simp +decide [jobj, jarr, Json.isNull, Json.orStr, Json.orBool,
      Bool.not_eq_true, hf]

/-! ### Claim C8 -/

/-- C8: a Format C data line whose candidate carries function-call parts
appends, for each part in order, a fully-formed pending tool call whose id
is the synthesized `gemini_tc_<N>` (`N` the pending count at that moment),
whose name is the part's `functionCall.name`, and whose arguments are the
serialized `args` object (`geminiExpected` spells this out); the tool-call
callback for them fires with the line that carries a `finishReason`. -/
theorem c8_gemini_functioncall_ids (jp : List Char → Option Json) (core : Core)
    (data : List Char) (calls : List (String × Json)) (finish : String)
    (hjp : jp data = some (gemLineJson calls finish))
    (hnames : ∀ p ∈ calls, ¬p.1 = "") :
    (parseGeminiChunk jp core data).core.pendingToolCalls =
      core.pendingToolCalls ++ geminiExpected core.pendingToolCalls.length calls ∧
    (parseGeminiChunk jp core data).trace =
      (if finish.isEmpty then []
       else finalizeToolCalls
         (core.pendingToolCalls ++ geminiExpected core.pendingToolCalls.length calls)) := by
  rw [parseGeminiChunk_line jp core data calls finish hjp hnames]
  by_cases hf : finish.isEmpty = true
  · rw [if_pos hf, if_pos hf]
    exact ⟨rfl, rfl⟩
  · rw [if_neg hf, if_neg hf]
    exact ⟨rfl, rfl⟩

/-- Witness for C8: the `get_weather(location=Paris)` function call on a
`finishReason: STOP` line becomes the pending tool call
`⟨gemini_tc_0, get_weather, \x7b"location":"Paris"\x7d⟩` and the tool-call
callback fires on that very line. -/
theorem c8_gemini_functioncall_ids_witness :
    (parseGeminiChunk jfix (initCore .Gemini)
        "\x7b\"candidates\":[\x7b\"content\":\x7b\"parts\":[\x7b\"functionCall\":\x7b\"name\":\"get_weather\",\"args\":\x7b\"location\":\"Paris\"\x7d\x7d\x7d]\x7d,\"finishReason\":\"STOP\"\x7d]\x7d".data).core.pendingToolCalls =
      (initCore .Gemini).pendingToolCalls ++
        geminiExpected (initCore .Gemini).pendingToolCalls.length
          [("get_weather", jobj [("location", .str "Paris")])] ∧
    (parseGeminiChunk jfix (initCore .Gemini)
        "\x7b\"candidates\":[\x7b\"content\":\x7b\"parts\":[\x7b\"functionCall\":\x7b\"name\":\"get_weather\",\"args\":\x7b\"location\":\"Paris\"\x7d\x7d\x7d]\x7d,\"finishReason\":\"STOP\"\x7d]\x7d".data).trace =
      (if ("STOP" : String).isEmpty then []
       else finalizeToolCalls ((initCore .Gemini).pendingToolCalls ++
         geminiExpected (initCore .Gemini).pendingToolCalls.length
           [("get_weather", jobj [("location", .str "Paris")])])) :=
  c8_gemini_functioncall_ids jfix (initCore .Gemini)
    "\x7b\"candidates\":[\x7b\"content\":\x7b\"parts\":[\x7b\"functionCall\":\x7b\"name\":\"get_weather\",\"args\":\x7b\"location\":\"Paris\"\x7d\x7d\x7d]\x7d,\"finishReason\":\"STOP\"\x7d]\x7d".data
    [("get_weather", jobj [("location", .str "Paris")])] "STOP"
    (by decide) (by decide)

/-! ### Claim C1 -/

/-- C1: for every JSON-deserializer interpretation, every format and every
byte sequence, feeding the sequence to a fresh parser one byte at a time
produces exactly the trace of callback invocations (raw event, content,
tool-call and error callbacks, in order and with the same arguments) that
feeding it in a single `feed` call produces, and the same final core state
— in particular the same `done`, error flag/code/message and accumulated
content (only the pending tail of an unterminated line may differ, and
only after a terminal state cut processing short). -/
theorem c1_byte_at_a_time_equiv :
    ∀ (jparse : List Char → Option Json) (format : SSEFormat) (input : List Char),
      (feedChunks jparse (initState format) (input.map (fun c => [c]))).2 =
        (feed jparse (initState format) input).2 ∧
      (feedChunks jparse (initState format) (input.map (fun c => [c]))).1.core =
        (feed jparse (initState format) input).1.core := by
  intro jparse format input
  obtain ⟨hcore, htr, _⟩ := feedChunks_obs jparse (input.map (fun c => [c]))
    (initState format) (Or.inr rfl)
  rw [flatten_map_singleton] at hcore htr
  exact ⟨htr, hcore⟩

/-! ### Claims C5 and C7 -/

/-- C7 (amended): for every configuration, attempt index and hint, the
retry delay is: for a positive hint, `hint * 1000` milliseconds computed
in wrapping 32-bit unsigned arithmetic and clamped to `maxDelay`;
otherwise `initialDelay * backoffMultiplier ^ attemptIndex` clamped to
`maxDelay`, with no overflow for large attempt indexes; in particular,
with initial=1000, multiplier=2, max=30000 the delays for attempts
0, 1, 2, 50 with no hint are 1000, 2000, 4000, 30000, and with max=10000
and hint=60 seconds the delay is 10000. -/
theorem c7_retry_delay_amended :
    (∀ (cfg : RetryConfig) (attempt : Nat) (hint : Int),
        calculateRetryDelay cfg attempt hint = delayForAmended cfg attempt hint)
    ∧ calculateRetryDelay ⟨false, 3, 1000, 2, 30000⟩ 0 (-1) = 1000
    ∧ calculateRetryDelay ⟨false, 3, 1000, 2, 30000⟩ 1 (-1) = 2000
    ∧ calculateRetryDelay ⟨false, 3, 1000, 2, 30000⟩ 2 (-1) = 4000
    ∧ calculateRetryDelay ⟨false, 3, 1000, 2, 30000⟩ 50 (-1) = 30000
    ∧ calculateRetryDelay ⟨false, 3, 1000, 2, 10000⟩ 0 60 = 10000 :=
  ⟨calculateRetryDelay_eq_amended,
   by norm_num [calculateRetryDelay] <;> decide, by norm_num [calculateRetryDelay] <;> decide,
   by norm_num [calculateRetryDelay] <;> decide, by norm_num [calculateRetryDelay] <;> decide,
   by norm_num [calculateRetryDelay] <;> decide⟩

/-- C7 (counterexample): the delay is not `hint * 1000` milliseconds
clamped to `maxDelay` for every positive hint: with `maxDelay = 10000` the
hint 4294968 seconds yields `4294968000 mod 2^32 = 704` milliseconds,
not the clamped 10000. -/
theorem c7_retry_delay_claim_cex :
    calculateRetryDelay ⟨false, 3, 1000, 2, 10000⟩ 0 4294968 = 704 ∧
    delayForClaim ⟨false, 3, 1000, 2, 10000⟩ 0 4294968 = 10000 ∧
    calculateRetryDelay ⟨false, 3, 1000, 2, 10000⟩ 0 4294968 ≠
      delayForClaim ⟨false, 3, 1000, 2, 10000⟩ 0 4294968 :=
  ⟨by decide, by decide, by decide⟩

/-- C5: single-shot execution equals, attempt by attempt, the loop the
claim describes (stop at first success; on failure stop when on the last
attempt, when retries are disabled or when the status is not retryable;
otherwise sleep the computed delay with the server hint and abort with a
network-lost error if the transport is unavailable after the sleep; on
final failure report oversized responses as ResponseTooLarge and
otherwise classify 401/403 → AuthError, 429 → RateLimited, other 4xx →
InvalidRequest, 0 → NetworkError, else ServerError with the body as the
message); moreover it makes at most `enabled ? maxRetries + 1 : 1`
transport calls, and every transport call before the last one returned
failure. -/
theorem c5_chat_single_shot :
    (∀ (cfg : RetryConfig) (transport : Nat → HttpResponse) (ready : Nat → Bool)
       (parseResponse : String → Response) (attempt remaining : Nat),
        chatGo cfg transport ready parseResponse attempt remaining =
          chatSpecGo cfg transport ready parseResponse attempt remaining)
    ∧ (∀ (cfg : RetryConfig) (configured transportPresent ready0 : Bool)
         (transport : Nat → HttpResponse) (ready : Nat → Bool)
         (parseResponse : String → Response),
        (chat cfg configured transportPresent ready0 transport ready
            parseResponse).transportCalls ≤ maxAttempts cfg)
    ∧ (∀ (cfg : RetryConfig) (configured transportPresent ready0 : Bool)
         (transport : Nat → HttpResponse) (ready : Nat → Bool)
         (parseResponse : String → Response) (i : Nat),
        i + 1 < (chat cfg configured transportPresent ready0 transport ready
            parseResponse).transportCalls →
        (transport i).success = false) := by
  refine ⟨chatGo_eq_spec, ?_, ?_⟩
  · intro cfg configured transportPresent ready0 transport ready parseResponse
    unfold chat
    split_ifs
    · exact Nat.zero_le _
    · exact Nat.zero_le _
    · exact Nat.zero_le _
    · exact chatGo_calls_le cfg transport ready parseResponse 0 (maxAttempts cfg)
  · intro cfg configured transportPresent ready0 transport ready parseResponse i hi
    unfold chat at hi
    split_ifs at hi
    · simp at hi
    · simp at hi
    · simp at hi
    · have := chatGo_stops_at_first_success cfg transport ready parseResponse 0
        (maxAttempts cfg) i hi
      simpa using this

/-! ### Lemmas: the single-slot asynchronous runner -/

theorem runnerStep_emits (st : RunnerCore) (a : RunnerAction)
    (h : (runnerStep st a).2 ≠ []) :
    (a = .poll ∧ st.isComplete = true ∧ st.callbackInvoked = false ∧
      (runnerStep st a).1.callbackInvoked = true)
    ∨ (∃ hasCb, a = .launch hasCb false ∧ st.status ≠ .Running) := by
  match a with
  | .workerFinish r => simp [runnerStep] at h
  | .cancel => simp [runnerStep] at h
  | .poll =>
    left
    unfold runnerStep pollStep at h ⊢
    by_cases h1 : st.isComplete = false
    · simp [h1] at h
    · by_cases h2 : st.callbackInvoked
      · simp [h1, h2] at h
      · refine ⟨rfl, by simpa using h1, by simpa using h2, ?_⟩
        simp [h1, h2]
  | .launch hasCb createOk =>
    right
    unfold runnerStep launchStep at h
    by_cases h1 : st.status = .Running
    · simp [h1] at h
    · by_cases h2 : createOk
      · simp [h1, h2] at h
      · exact ⟨hasCb, by simp [h2], h1⟩

theorem runnerStep_keeps_flag (st : RunnerCore) (a : RunnerAction)
    (hf : st.callbackInvoked = true) (hl : a.isLaunch = false) :
    (runnerStep st a).1.callbackInvoked = true := by
  match a with
  | .launch hasCb createOk => simp [RunnerAction.isLaunch] at hl
  | .workerFinish r =>
    unfold runnerStep workerFinishStep
    split_ifs <;> simpa using hf
  | .cancel => simpa [runnerStep, cancelStep] using hf
  | .poll =>
    unfold runnerStep pollStep
    split_ifs <;> simpa using hf

theorem runnerStateAfter_append (l1 l2 : List RunnerAction) (st : RunnerCore) :
    runnerStateAfter st (l1 ++ l2) = runnerStateAfter (runnerStateAfter st l1) l2 := by
  induction l1 generalizing st with
  | nil => rfl
  | cons a rest ih => simp [runnerStateAfter, ih]

theorem runnerStateAfter_take_succ (acts : List RunnerAction) (i : Nat) (st : RunnerCore)
    (hi : i < acts.length) :
    runnerStateAfter st (acts.take (i + 1)) =
      (runnerStep (runnerStateAfter st (acts.take i)) (acts.getD i .cancel)).1 := by
  induction acts generalizing i st with
  | nil => simp at hi
  | cons a rest ih =>
    match i with
    | 0 => rfl
    | m + 1 =>
      simp only [List.take_succ_cons, runnerStateAfter, List.getD_cons_succ]
      exact ih m (runnerStep st a).1 (by simpa using hi)

theorem runnerFlag_persists (acts : List RunnerAction) (i j : Nat) (st : RunnerCore)
    (hij : i ≤ j) (hj : j ≤ acts.length)
    (hflag : (runnerStateAfter st (acts.take i)).callbackInvoked = true)
    (hnol : ∀ k, i ≤ k → k < j → (acts.getD k .cancel).isLaunch = false) :
    (runnerStateAfter st (acts.take j)).callbackInvoked = true := by
  induction j, hij using Nat.le_induction with
  | base => exact hflag
  | succ j hij ih =>
    have hjlen : j < acts.length := by omega
    rw [runnerStateAfter_take_succ acts j st hjlen]
    refine runnerStep_keeps_flag _ _ ?_ (hnol j hij (by omega))
    exact ih (by omega) (fun k hk1 hk2 => hnol k hk1 (by omega))

/-- C3 (amended): over every serialized action sequence on a fresh slot,
(1) when every launch's task creation succeeds, two callback-invoking steps
always have an intervening launch between them — so each run invokes the
completion callback at most once; (2) a step can invoke the callback only
as a poll whose pre-state is terminal with the one-shot flag still clear
(and the invocation sets the flag), or as a launch whose task creation
failed — never from the worker and never from a successful launch;
(3) once the flag is set, further polls return true without invoking
anything; (4) the worker's own finish step invokes no callback; (5) the
exception: a failed launch invokes the registered callback synchronously
with the out-of-memory result. -/
theorem c3_callback_once_amended :
    (∀ (acts : List RunnerAction) (i j : Nat), i < j → j < acts.length →
        (∀ a ∈ acts, a.isFailedLaunch = false) →
        runnerEventsAt runnerInit acts i ≠ [] → runnerEventsAt runnerInit acts j ≠ [] →
        ∃ k, i < k ∧ k ≤ j ∧ (acts.getD k .cancel).isLaunch = true)
    ∧ (∀ (st : RunnerCore) (a : RunnerAction), (runnerStep st a).2 ≠ [] →
        (a = .poll ∧ st.isComplete = true ∧ st.callbackInvoked = false)
        ∨ (∃ hasCb, a = .launch hasCb false))
    ∧ (∀ st : RunnerCore, st.isComplete = true → st.callbackInvoked = true →
        pollStep st = (st, [], true))
    ∧ (∀ (st : RunnerCore) (r : Response), (runnerStep st (.workerFinish r)).2 = [])
    ∧ (∀ st : RunnerCore, st.status ≠ .Running →
        (launchStep st true false).2.1 =
          [⟨.fromLaunch, Response.fail .OutOfMemory "Failed to create async task" 0⟩]) := by
  refine ⟨?_, ?_, ?_, ?_, ?_⟩
  · intro acts i j hij hjlen hok hi hj
    unfold runnerEventsAt at hi hj
    by_contra hcon
    push_neg at hcon
    have hnol : ∀ k, i + 1 ≤ k → k < j → (acts.getD k .cancel).isLaunch = false := by
      intro k hk1 hk2
      have := hcon k (by omega) (by omega)
      simpa using this
    have hilen : i < acts.length := by omega
    have hmem_i : acts.getD i .cancel ∈ acts := by
      rw [List.getD_eq_getElem?_getD, List.getElem?_eq_getElem hilen]
      simpa using List.getElem_mem _
    have hmem_j : acts.getD j .cancel ∈ acts := by
      rw [List.getD_eq_getElem?_getD, List.getElem?_eq_getElem hjlen]
      simpa using List.getElem_mem _
    have hstep_i := runnerStep_emits _ _ hi
    have hflag_i1 :
        (runnerStateAfter runnerInit (acts.take (i + 1))).callbackInvoked = true := by
      rw [runnerStateAfter_take_succ acts i runnerInit hilen]
      rcases hstep_i with ⟨_, _, _, h4⟩ | ⟨hasCb, ha, _⟩
      · exact h4
      · have := hok _ hmem_i
        rw [ha] at this
        simp [RunnerAction.isFailedLaunch] at this
    have hflag_j : (runnerStateAfter runnerInit (acts.take j)).callbackInvoked = true :=
      runnerFlag_persists acts (i + 1) j runnerInit (by omega) (by omega) hflag_i1 hnol
    have hstep_j := runnerStep_emits _ _ hj
    rcases hstep_j with ⟨_, _, h3, _⟩ | ⟨hasCb, ha, _⟩
    · rw [hflag_j] at h3
      simp at h3
    · have := hok _ hmem_j
      rw [ha] at this
      simp [RunnerAction.isFailedLaunch] at this
  · intro st a h
    rcases runnerStep_emits st a h with ⟨h1, h2, h3, _⟩ | ⟨hasCb, ha, _⟩
    · exact Or.inl ⟨h1, h2, h3⟩
    · exact Or.inr ⟨hasCb, ha⟩
  · intro st h1 h2
    unfold pollStep
    simp [h1, h2]
  · intro st r
    rfl
  · intro st h
    unfold launchStep
    simp [h]

/-- Witness for C3: two complete launch–finish–poll runs; the two polls
both invoke the callback, and the theorem yields the intervening launch. -/
theorem c3_callback_once_witness :
    (∃ k, 2 < k ∧ k ≤ 5 ∧
      (([RunnerAction.launch true true, .workerFinish (Response.ok "a"), .poll,
         .launch true true, .workerFinish (Response.ok "b"), .poll] :
         List RunnerAction).getD k .cancel).isLaunch = true) :=
  c3_callback_once_amended.1
    [RunnerAction.launch true true, .workerFinish (Response.ok "a"), .poll,
     .launch true true, .workerFinish (Response.ok "b"), .poll]
    2 5 (by decide) (by decide) (by decide) (by decide) (by decide)

/-- C3 (counterexample): when task creation fails, `launch` itself invokes
the completion callback, and a subsequent `poll` invokes it a second time
— the callback fires twice in one run, once directly from launch. -/
theorem c3_callback_once_cex :
    runnerAllEvents runnerInit [RunnerAction.launch true false, .poll] =
      [⟨.fromLaunch, Response.fail .OutOfMemory "Failed to create async task" 0⟩,
       ⟨.fromPoll, Response.fail .OutOfMemory "Failed to create async task" 0⟩] ∧
    (runnerAllEvents runnerInit [RunnerAction.launch true false, .poll]).length = 2 ∧
    (runnerEventsAt runnerInit [RunnerAction.launch true false, .poll] 0 ≠ []) := by
  refine ⟨by decide, by decide, by decide⟩

/-- Witness for C5: a concrete enabled-retry run whose first attempt fails
with a retryable 500 and whose second succeeds makes two transport calls,
and the call before the last one indeed failed. -/
theorem c5_chat_single_shot_witness :
    0 + 1 < (chat ⟨true, 1, 1000, 2, 30000⟩ true true true
        (fun i => if i = 0 then ⟨500, "err", false, false, -1⟩ else ⟨200, "ok", true, false, -1⟩)
        (fun _ => true) (fun _ => Response.ok "done")).transportCalls ∧
    ((fun i => if i = 0 then (⟨500, "err", false, false, -1⟩ : HttpResponse)
        else ⟨200, "ok", true, false, -1⟩) 0).success = false :=
  ⟨by decide,
   c5_chat_single_shot.2.2 ⟨true, 1, 1000, 2, 30000⟩ true true true
     (fun i => if i = 0 then ⟨500, "err", false, false, -1⟩ else ⟨200, "ok", true, false, -1⟩)
     (fun _ => true) (fun _ => Response.ok "done") 0 (by decide)⟩

end ESPAI
